import Mathlib

/-!
Verification of the document-tree reorganization engine
(`scripts/consolidate_docs.py`).

The script is shallowly embedded: paths are lists of components, the
filesystem state is an explicit record, and each step of `main` is a pure
state transformer.  Per-item I/O failures (the `try/except` around one
file move) are modelled by a failure oracle `fails : Path → Bool`; a
failing item is modelled as raising before any effect of that item.
-/

namespace ConsolidateDocs

/-! ### Decimal representation of naturals

The collision resolver builds candidate names with Python's `str(counter)`,
modelled by Lean's `toString : Nat → String` (both are plain decimal).
Termination of the probe loop within its pigeonhole fuel bound needs that
distinct counters give distinct strings, so we prove `Nat.repr` injective. -/

/-- The digit list produced for `n` in base 10, by well-founded recursion. -/
def natDigits (n : Nat) : List Char :=
  if n < 10 then [Nat.digitChar n]
  else natDigits (n / 10) ++ [Nat.digitChar (n % 10)]
decreasing_by exact Nat.div_lt_self (by omega) (by omega)


/-! ### String utilities

`strContains s pat` models Python's substring test `pat in s`;
`splitStemSuffix` models `pathlib.Path.stem` / `.suffix` (the suffix is
nonempty only when the last dot sits strictly inside the name). -/

/-- `charsStartWith pat s`: the char list `s` starts with `pat`. -/
def charsStartWith : List Char → List Char → Bool
  | [], _ => true
  | _ :: _, [] => false
  | a :: as, b :: bs => a == b && charsStartWith as bs

/-- `charsContain pat s`: `pat` occurs as a contiguous run inside `s`. -/
def charsContain (pat : List Char) : List Char → Bool
  | [] => charsStartWith pat []
  | b :: bs => charsStartWith pat (b :: bs) || charsContain pat bs

/-- Python's `pat in s` on strings. -/
def strContains (s pat : String) : Bool := charsContain pat.data s.data

/-- Python's `str.lower()` (the names involved are ASCII).  Defined by
structural recursion over the characters so concrete runs compute. -/
def lowerStr (s : String) : String := ⟨s.data.map Char.toLower⟩

/-- Index of the last `'.'` in a char list, if any. -/
def lastDotIdx (cs : List Char) : Option Nat :=
  match cs.reverse.findIdx? (fun c => c == '.') with
  | some j => some (cs.length - 1 - j)
  | none => none

/-- `pathlib`'s `(stem, suffix)` of a file name: split at the last dot when
it is neither the first nor the last character, else suffix is empty. -/
def splitStemSuffix (name : String) : String × String :=
  match lastDotIdx name.data with
  | some i =>
    if 0 < i ∧ i < name.data.length - 1 then
      (⟨name.data.take i⟩, ⟨name.data.drop i⟩)
    else (name, "")
  | none => (name, "")

/-! ### Category registry and classifier (`SUBDIR_MAPPINGS`, `map_file_to_category`) -/

def SUBDIR_MAPPINGS : List (String × String) := [
  ("01_GETTING_STARTED", "╔═══ GETTING_STARTED ═══╗"),
  ("02_ARCHITECTURE", "╠═══ ARCHITECTURE ═══╣"),
  ("03_DEVELOPMENT", "╠═══ DEVELOPMENT ═══╣"),
  ("04_DEPLOYMENT", "╠═══ DEPLOYMENT ═══╣"),
  ("05_SECURITY", "╠═══ SECURITY ═══╣"),
  ("06_API_REFERENCE", "╠═══ API_REFERENCE ═══╣"),
  ("07_SERVICES", "╠═══ SERVICES ═══╣"),
  ("08_TESTING", "╠═══ TESTING ═══╣"),
  ("09_AUDITS_AND_REPORTS", "╠═══ AUDITS_AND_REPORTS ═══╣"),
  ("10_GUIDES_AND_TUTORIALS", "╠═══ GUIDES_AND_TUTORIALS ═══╣"),
  ("11_MIGRATION_GUIDES", "╠═══ MIGRATION_GUIDES ═══╣"),
  ("12_REFERENCE", "╚═══ REFERENCE ═══╝")]

/-- `SUBDIR_MAPPINGS[key]` (total lookup; every use site passes a real key). -/
def smLookup (k : String) : String := (SUBDIR_MAPPINGS.lookup k).getD ""

/-- The twelve decorated category directory names. -/
def categoryValues : List String := SUBDIR_MAPPINGS.map Prod.snd

/-- Body of `map_file_to_category` after both inputs were lower-cased. -/
def classifyLower (dir_name file_name : String) : String :=
  if dir_name = "." ∨ dir_name = "" then
    if strContains file_name "getting_started" || strContains file_name "setup" ||
        strContains file_name "environment" then smLookup "01_GETTING_STARTED"
    else if strContains file_name "architecture" then smLookup "02_ARCHITECTURE"
    else if strContains file_name "development" || strContains file_name "build" ||
        strContains file_name "storybook" || strContains file_name "wiki" then
      smLookup "03_DEVELOPMENT"
    else if strContains file_name "deployment" then smLookup "04_DEPLOYMENT"
    else if strContains file_name "security" then smLookup "05_SECURITY"
    else if strContains file_name "api" then smLookup "06_API_REFERENCE"
    else if strContains file_name "service" then smLookup "07_SERVICES"
    else if strContains file_name "test" then smLookup "08_TESTING"
    else if strContains file_name "audit" || strContains file_name "cache" ||
        strContains file_name "dead_code" then smLookup "09_AUDITS_AND_REPORTS"
    else if strContains file_name "guide" || strContains file_name "resend" ||
        strContains file_name "auto_config" then smLookup "10_GUIDES_AND_TUTORIALS"
    else if strContains file_name "migration" then smLookup "11_MIGRATION_GUIDES"
    else if strContains file_name "product" || strContains file_name "reference" ||
        strContains file_name "scrollbar" || strContains file_name "analytics" ||
        strContains file_name "cloudflare" || strContains file_name "chat" then
      smLookup "12_REFERENCE"
    else smLookup "12_REFERENCE"
  else
    if dir_name = "getting-started" then smLookup "01_GETTING_STARTED"
    else if dir_name = "architecture" then smLookup "02_ARCHITECTURE"
    else if dir_name = "development" then smLookup "03_DEVELOPMENT"
    else if dir_name = "deployment" then smLookup "04_DEPLOYMENT"
    else if dir_name = "security" then smLookup "05_SECURITY"
    else if dir_name = "api" then smLookup "06_API_REFERENCE"
    else if dir_name = "services" then smLookup "07_SERVICES"
    else if dir_name = "guides" then smLookup "10_GUIDES_AND_TUTORIALS"
    else if dir_name = "reference" then smLookup "12_REFERENCE"
    else smLookup "12_REFERENCE"

/-- `map_file_to_category`, taking the relative parent-directory name and
the file name (the source derives them from `file_path.relative_to(docs_dir)`
and lower-cases both). -/
def map_file_to_category (dirName fileName : String) : String :=
  classifyLower (lowerStr dirName) (lowerStr fileName)

/-- The disjunction of every classification rule's predicate, in source
order; `false` means the input is matched by no rule. -/
def matchesAnyRuleLower (dir_name file_name : String) : Bool :=
  if dir_name = "." ∨ dir_name = "" then
    strContains file_name "getting_started" || strContains file_name "setup" ||
    strContains file_name "environment" ||
    strContains file_name "architecture" ||
    strContains file_name "development" || strContains file_name "build" ||
    strContains file_name "storybook" || strContains file_name "wiki" ||
    strContains file_name "deployment" ||
    strContains file_name "security" ||
    strContains file_name "api" ||
    strContains file_name "service" ||
    strContains file_name "test" ||
    strContains file_name "audit" || strContains file_name "cache" ||
    strContains file_name "dead_code" ||
    strContains file_name "guide" || strContains file_name "resend" ||
    strContains file_name "auto_config" ||
    strContains file_name "migration" ||
    strContains file_name "product" || strContains file_name "reference" ||
    strContains file_name "scrollbar" || strContains file_name "analytics" ||
    strContains file_name "cloudflare" || strContains file_name "chat"
  else
    decide (dir_name = "getting-started") || decide (dir_name = "architecture") ||
    decide (dir_name = "development") || decide (dir_name = "deployment") ||
    decide (dir_name = "security") || decide (dir_name = "api") ||
    decide (dir_name = "services") || decide (dir_name = "guides") ||
    decide (dir_name = "reference")

def matchesAnyRule (dirName fileName : String) : Bool :=
  matchesAnyRuleLower (lowerStr dirName) (lowerStr fileName)


/-! ### Collision resolver

The source resolves a name conflict with

    counter = 1
    while target_file.exists():
        target_file = target_dir / f"{stem}_{counter}{suffix}"
        counter += 1

The loop is embedded with explicit fuel `existing.length + 2`; the
pigeonhole argument below (candidate names are pairwise distinct, the
directory holds `existing.length` names) shows this fuel is never
exhausted, so the embedding computes exactly what the loop does. -/

/-- Python's `f"{stem}_{counter}{suffix}"`. -/
def candidateName (stem suffix : String) (k : Nat) : String :=
  stem ++ "_" ++ toString k ++ suffix

/-- One probe of the while loop: `current` is the candidate about to be
tested against the directory, `counter` the next suffix number. -/
def resolveGo (existing : List String) (stem suffix : String) :
    String → Nat → Nat → String
  | current, _, 0 => current
  | current, counter, fuel+1 =>
    if current ∈ existing then
      resolveGo existing stem suffix (candidateName stem suffix counter) (counter + 1) fuel
    else current

/-- The collision resolver: final name chosen for `name` against the file
names `existing` already present in the target directory. -/
def resolveName (existing : List String) (name : String) : String :=
  resolveGo existing (splitStemSuffix name).1 (splitStemSuffix name).2 name 1
    (existing.length + 2)


/-! ### Filesystem model

Paths are lists of components relative to a root.  The state tracks the
repository root's directories (for the container rename), the container's
subdirectories and files, and the `docs/` source tree. -/

abbrev Path := List String

/-- A file in the container: category directory, file name, and — as its
content — the source path it was moved from (pre-existing files carry an
arbitrary tag). -/
structure PFile where
  dir : String
  name : String
  origin : Path
deriving DecidableEq

/-- The `docs/` source tree: every regular file and every directory, as
component paths relative to `docs/`. -/
structure DocsState where
  files : List Path
  dirs : List Path
deriving DecidableEq

structure FS where
  rootDirs : List String
  pandaDirs : List String
  panda : List PFile
  docsExists : Bool
  docs : DocsState
deriving DecidableEq

def OLD_PANDA_CORE : String := "╠═══ PANDA_CORE ═══╣"
def NEW_PANDA_CORE : String := "╠═══ PANDA_CORE ═══╣"

/-- Step 1: rename the main container directory.  `none` models the
structural abort (`return` after "PANDA_CORE directory not found!"). -/
def step1 (fs : FS) : Option FS :=
  if OLD_PANDA_CORE ∈ fs.rootDirs then
    if NEW_PANDA_CORE ∈ fs.rootDirs then some fs
    else
      let renamed := fs.rootDirs.map
        (fun d => if d = OLD_PANDA_CORE then NEW_PANDA_CORE else d)
      some { fs with rootDirs := renamed }
  else
    if NEW_PANDA_CORE ∈ fs.rootDirs then some fs
    else none

/-- Step 2, one mapping: rename a legacy category subdirectory to its
decorated name (skipping when the target exists), carrying the files that
physically live under it to the new directory name. -/
def renameSubdir (fs : FS) (m : String × String) : FS :=
  if m.1 ∈ fs.pandaDirs then
    if m.2 ∈ fs.pandaDirs then fs
    else { fs with
      pandaDirs := fs.pandaDirs.map (fun d => if d = m.1 then m.2 else d),
      panda := fs.panda.map (fun e => if e.dir = m.1 then ⟨m.2, e.name, e.origin⟩ else e) }
  else fs

def step2 (fs : FS) : FS := SUBDIR_MAPPINGS.foldl renameSubdir fs

/-- `relative_path.parent.name` (empty for a file directly under `docs/`). -/
def parentNameOf (p : Path) : String := p.dropLast.getLast?.getD ""

/-- `relative_path.name`. -/
def fileNameOf (p : Path) : String := p.getLast?.getD ""

/-- Python's `str.endswith`, by structural recursion on the reversed
characters. -/
def strEndsWith (s post : String) : Bool :=
  charsStartWith post.data.reverse s.data.reverse

/-- Whether `rglob("*.md")` lists the path: its name matches `*.md`. -/
def mdGlob (p : Path) : Bool := strEndsWith (fileNameOf p) ".md"

/-- File names currently present in one category directory. -/
def namesIn (panda : List PFile) (dir : String) : List String :=
  (panda.filter (fun e => e.dir == dir)).map PFile.name

structure RunState where
  fs : FS
  movedCount : Nat
  errorCount : Nat
deriving DecidableEq

/-- Step 3 body for one enumerated path.  A per-item failure (`fails f`)
models the `except` branch: the error count rises, nothing else changes
(a failing item is modelled as raising before any effect), and the loop
continues. -/
def moveOne (fails : Path → Bool) (st : RunState) (f : Path) : RunState :=
  if fails f then { st with errorCount := st.errorCount + 1 }
  else
    let targetCategory := map_file_to_category (parentNameOf f) (fileNameOf f)
    let pandaDirs' := if targetCategory ∈ st.fs.pandaDirs then st.fs.pandaDirs
      else st.fs.pandaDirs ++ [targetCategory]
    let targetName := resolveName (namesIn st.fs.panda targetCategory) (fileNameOf f)
    { st with
      fs := { st.fs with
        pandaDirs := pandaDirs',
        panda := st.fs.panda ++ [⟨targetCategory, targetName, f⟩],
        docs := { st.fs.docs with files := st.fs.docs.files.erase f } },
      movedCount := st.movedCount + 1 }

/-- The list `all_files = list(docs_dir.rglob("*.md"))`. -/
def mdFiles (fs : FS) : List Path := fs.docs.files.filter mdGlob

def step3 (fails : Path → Bool) (st : RunState) : RunState :=
  if st.fs.docsExists then (mdFiles st.fs).foldl (moveOne fails) st else st

/-- `p` lies strictly inside the directory `d`. -/
def underDir (d p : Path) : Prop := d <+: p ∧ d ≠ p

def parentDir (p : Path) : Path := p.dropLast

/-- `len(str(p))` up to the constant length of the absolute `docs/`
prefix, which cancels in every comparison the sort makes. -/
def pathKey (p : Path) : Nat := p.foldl (fun acc c => acc + 1 + c.length) 0

/-- `not any(dir_path.iterdir())`: no file and no still-existing directory
lies directly in `d`. -/
def dirEmpty (files dirs : List Path) (d : Path) : Bool :=
  files.all (fun f => parentDir f != d) && dirs.all (fun e => parentDir e != d)

/-- Step 4's loop: walk `order` (longest path string first), removing each
directory found empty when visited. -/
def pruneFold (files : List Path) : List Path → List Path → List Path
  | [], current => current
  | d :: rest, current =>
    if dirEmpty files current d then pruneFold files rest (current.erase d)
    else pruneFold files rest current

/-- `sorted(docs_dir.rglob("*"), key=lambda p: len(str(p)), reverse=True)`,
restricted to directories: files in that listing are skipped by the
`is_dir()` test, and dropping them from the iteration changes nothing. -/
def sortDirsForPrune (dirs : List Path) : List Path :=
  List.insertionSort (fun a b => pathKey b ≤ pathKey a) dirs

def pruneStep (st : DocsState) : DocsState :=
  { st with dirs := pruneFold st.files (sortDirsForPrune st.dirs) (sortDirsForPrune st.dirs) }

def step4 (st : RunState) : RunState :=
  if st.fs.docsExists then { st with fs := { st.fs with docs := pruneStep st.fs.docs } }
  else st

/-- Step 5: remove `docs/` when `rglob("*")` lists nothing, else report
how many entries remain. -/
def step5 (st : RunState) : RunState × Option Nat :=
  if st.fs.docsExists then
    if st.fs.docs.files.isEmpty && st.fs.docs.dirs.isEmpty then
      ({ st with fs := { st.fs with docsExists := false } }, none)
    else (st, some (st.fs.docs.files.length + st.fs.docs.dirs.length))
  else (st, none)

structure RunResult where
  fs : FS
  movedCount : Nat
  errorCount : Nat
  aborted : Bool
  exitCode : Nat
  summary : Option (Nat × Nat)
  remainingReport : Option Nat
deriving DecidableEq

/-- The whole `main()` under failure oracle `fails`.  `main` never calls
`sys.exit`, so the process exit code is 0 on every path, including the
structural abort. -/
def runMainF (fails : Path → Bool) (fs0 : FS) : RunResult :=
  match step1 fs0 with
  | none =>
    { fs := fs0, movedCount := 0, errorCount := 0, aborted := true,
      exitCode := 0, summary := none, remainingReport := none }
  | some fs1 =>
    let fs2 := step2 fs1
    let st3 := step3 fails { fs := fs2, movedCount := 0, errorCount := 0 }
    let st4 := step4 st3
    let r5 := step5 st4
    { fs := r5.1.fs, movedCount := r5.1.movedCount, errorCount := r5.1.errorCount,
      aborted := false, exitCode := 0,
      summary := if fs2.docsExists then some (st3.movedCount, st3.errorCount) else none,
      remainingReport := r5.2 }

def noFail : Path → Bool := fun _ => false

def runMain (fs0 : FS) : RunResult := runMainF noFail fs0

/-- The category a document is classified into. -/
def classifyOf (f : Path) : String :=
  map_file_to_category (parentNameOf f) (fileNameOf f)

/-- Placement key of a container file: which name in which directory.  Two
files on disk can never share a key, so keeping the keys `Nodup` is
exactly "no move ever overwrote an existing file". -/
def pkey (e : PFile) : String × String := (e.dir, e.name)

/-- Identity of a placed document: target directory and source content. -/
def dirOrigin (e : PFile) : String × Path := (e.dir, e.origin)

/-- Directory `d` has no file anywhere in its subtree. -/
def TransEmpty (files : List Path) (d : Path) : Prop :=
  ∀ f ∈ files, ¬ underDir d f

instance (files : List Path) (d : Path) : Decidable (TransEmpty files d) := by
  unfold TransEmpty underDir
  infer_instance

/-- Well-formedness of a `docs/` tree as it can exist on disk: entries are
distinct non-root paths and every strict ancestor of a file is a listed
directory. -/
structure DocsWF (st : DocsState) : Prop where
  filesNodup : st.files.Nodup
  dirsNodup : st.dirs.Nodup
  filesNonempty : ∀ f ∈ st.files, f ≠ []
  dirsNonempty : ∀ d ∈ st.dirs, d ≠ []
  closed : ∀ f ∈ st.files, ∀ k, k < f.length → 0 < k → f.take k ∈ st.dirs

/-- Well-formedness of the whole filesystem state. -/
structure FSWF (fs : FS) : Prop where
  docs : DocsWF fs.docs
  pandaKeysNodup : (fs.panda.map pkey).Nodup
  pandaConsistent : ∀ e ∈ fs.panda, e.dir ∈ fs.pandaDirs

/-- Every legacy category directory that is still present has its decorated
counterpart present too (holds after step 2 has run once; makes step 2 a
no-op). -/
def LegacyDone (fs : FS) : Prop :=
  ∀ m ∈ SUBDIR_MAPPINGS, m.1 ∈ fs.pandaDirs → m.2 ∈ fs.pandaDirs

/-- The enumerated documents a run actually moves: the `*.md` files the
failure oracle lets succeed. -/
def movedList (fails : Path → Bool) (fs : FS) : List Path :=
  (mdFiles fs).filter (fun f => !fails f)

/-! ### Basic lemmas -/

theorem natDigits_eq_of_lt {n : Nat} (h : n < 10) :
    natDigits n = [Nat.digitChar n] := by
  rw [natDigits, if_pos h]

theorem natDigits_eq_of_ge {n : Nat} (h : 10 ≤ n) :
    natDigits n = natDigits (n / 10) ++ [Nat.digitChar (n % 10)] := by
  rw [natDigits, if_neg (by omega)]

/-- `Nat.toDigitsCore` with enough fuel computes `natDigits`. -/
theorem toDigitsCore_eq_natDigits :
    ∀ (fuel n : Nat) (ds : List Char), n < fuel →
      Nat.toDigitsCore 10 fuel n ds = natDigits n ++ ds := by
  intro fuel
  induction fuel with
  | zero => intro n ds h; omega
  | succ f ih =>
    intro n ds h
    show (if n / 10 = 0 then _ else Nat.toDigitsCore 10 f (n / 10) _) = _
    by_cases h10 : n / 10 = 0
    · have hn : n < 10 := by omega
      rw [if_pos h10, natDigits_eq_of_lt hn]
      simp [Nat.mod_eq_of_lt hn]
    · have hge : 10 ≤ n := by
        by_contra hc
        exact h10 (Nat.div_eq_of_lt (by omega))
      have hlt : n / 10 < n := Nat.div_lt_self (by omega) (by omega)
      rw [if_neg h10, ih (n / 10) _ (by omega)]
      rw [natDigits_eq_of_ge hge, List.append_assoc]
      rfl

/-- Numeric value of a digit character. -/
def digitVal (c : Char) : Nat := c.toNat - 48

/-- Value of a digit list read in base 10. -/
def digitsVal (ds : List Char) : Nat := ds.foldl (fun a c => 10 * a + digitVal c) 0

theorem digitVal_digitChar {k : Nat} (h : k < 10) :
    digitVal (Nat.digitChar k) = k := by
  interval_cases k <;> rfl

theorem digitsVal_append_singleton (ds : List Char) (c : Char) :
    digitsVal (ds ++ [c]) = 10 * digitsVal ds + digitVal c := by
  simp [digitsVal, List.foldl_append]

theorem digitsVal_natDigits (n : Nat) : digitsVal (natDigits n) = n := by
  induction n using Nat.strong_induction_on with
  | _ n ih =>
    by_cases h : n < 10
    · rw [natDigits_eq_of_lt h]
      simpa [digitsVal] using digitVal_digitChar h
    · have hge : 10 ≤ n := by omega
      rw [natDigits_eq_of_ge hge, digitsVal_append_singleton,
        ih (n / 10) (Nat.div_lt_self (by omega) (by omega)),
        digitVal_digitChar (Nat.mod_lt _ (by omega))]
      omega

theorem natDigits_injective : Function.Injective natDigits := by
  intro a b h
  have := digitsVal_natDigits a
  rw [h, digitsVal_natDigits] at this
  omega

theorem natRepr_data (n : Nat) : (Nat.repr n).data = natDigits n := by
  show (Nat.toDigits 10 n).asString.data = natDigits n
  rw [Nat.toDigits, toDigitsCore_eq_natDigits (n + 1) n [] (Nat.lt_succ_self n)]
  simp [List.asString]

theorem toString_nat_injective : Function.Injective (toString : Nat → String) := by
  intro a b h
  apply natDigits_injective
  rw [← natRepr_data, ← natRepr_data]
  exact congrArg String.data h
theorem mem_ite_of {α : Type} {S : List α} {c : Prop} [Decidable c] {a b : α}
    (ha : a ∈ S) (hb : b ∈ S) : (if c then a else b) ∈ S := by
  split <;> assumption

theorem classifyLower_mem (d f : String) : classifyLower d f ∈ categoryValues := by
  delta classifyLower
  repeat' apply mem_ite_of
  all_goals decide

theorem classifyLower_catchall (d f : String) (h : matchesAnyRuleLower d f = false) :
    classifyLower d f = smLookup "12_REFERENCE" := by
  delta matchesAnyRuleLower at h
  delta classifyLower
  by_cases hd : d = "." ∨ d = ""
  · rw [if_pos hd] at h ⊢
    simp only [Bool.or_eq_false_iff, and_assoc] at h
    rw [if_neg (by simp [h.1, h.2.1, h.2.2.1]),
      if_neg (by simp [h.2.2.2.1]),
      if_neg (by simp [h.2.2.2.2.1, h.2.2.2.2.2.1, h.2.2.2.2.2.2.1,
        h.2.2.2.2.2.2.2.1]),
      if_neg (by simp [h.2.2.2.2.2.2.2.2.1]),
      if_neg (by simp [h.2.2.2.2.2.2.2.2.2.1]),
      if_neg (by simp [h.2.2.2.2.2.2.2.2.2.2.1]),
      if_neg (by simp [h.2.2.2.2.2.2.2.2.2.2.2.1]),
      if_neg (by simp [h.2.2.2.2.2.2.2.2.2.2.2.2.1]),
      if_neg (by simp [h.2.2.2.2.2.2.2.2.2.2.2.2.2.1,
        h.2.2.2.2.2.2.2.2.2.2.2.2.2.2.1, h.2.2.2.2.2.2.2.2.2.2.2.2.2.2.2.1]),
      if_neg (by simp [h.2.2.2.2.2.2.2.2.2.2.2.2.2.2.2.2.1,
        h.2.2.2.2.2.2.2.2.2.2.2.2.2.2.2.2.2.1,
        h.2.2.2.2.2.2.2.2.2.2.2.2.2.2.2.2.2.2.1]),
      if_neg (by simp [h.2.2.2.2.2.2.2.2.2.2.2.2.2.2.2.2.2.2.2.1]),
      ite_self]
  · rw [if_neg hd] at h ⊢
    simp only [Bool.or_eq_false_iff, and_assoc, decide_eq_false_iff_not] at h
    rw [if_neg h.1, if_neg h.2.1, if_neg h.2.2.1, if_neg h.2.2.2.1,
      if_neg h.2.2.2.2.1, if_neg h.2.2.2.2.2.1, if_neg h.2.2.2.2.2.2.1,
      if_neg h.2.2.2.2.2.2.2.1, if_neg h.2.2.2.2.2.2.2.2]
theorem candidateName_injective (stem suffix : String) :
    Function.Injective (candidateName stem suffix) := by
  intro a b h
  apply toString_nat_injective
  have hd := congrArg String.data h
  simp only [candidateName, String.data_append, List.append_assoc,
    List.singleton_append] at hd
  have h1 := List.append_cancel_left hd
  injection h1 with _ h2
  exact String.ext (List.append_cancel_right h2)

/-- Pigeonhole: some candidate index in `[1, existing.length + 1]` is free. -/
theorem exists_free_candidate (existing : List String) (stem suffix : String) :
    ∃ j, 1 ≤ j ∧ j ≤ existing.length + 1 ∧
      candidateName stem suffix j ∉ existing := by
  by_contra hc
  push_neg at hc
  have hsub : (List.range' 1 (existing.length + 1)).map
      (candidateName stem suffix) ⊆ existing := by
    intro x hx
    obtain ⟨j, hj, rfl⟩ := List.mem_map.mp hx
    have := List.mem_range'_1.mp hj
    exact hc j this.1 (by omega)
  have hnd : ((List.range' 1 (existing.length + 1)).map
      (candidateName stem suffix)).Nodup :=
    (List.nodup_range' ..).map (candidateName_injective stem suffix)
  have := (List.subperm_of_subset hnd hsub).length_le
  rw [List.length_map, List.length_range'] at this
  omega

/-- In the probing regime (`current` is candidate `c`, next counter `c+1`),
if some candidate index in `[c, c+fuel)` is free then the loop returns the
candidate of the least free index `≥ c`. -/
theorem resolveGo_least (existing : List String) (stem suffix : String) :
    ∀ (fuel c : Nat),
      (∃ j, c ≤ j ∧ j < c + fuel ∧ candidateName stem suffix j ∉ existing) →
      ∃ k, c ≤ k ∧
        resolveGo existing stem suffix (candidateName stem suffix c) (c + 1) fuel =
          candidateName stem suffix k ∧
        candidateName stem suffix k ∉ existing ∧
        ∀ i, c ≤ i → i < k → candidateName stem suffix i ∈ existing := by
  intro fuel
  induction fuel with
  | zero =>
    intro c ⟨j, h1, h2, _⟩
    omega
  | succ f ih =>
    intro c ⟨j, hj1, hj2, hj3⟩
    rw [resolveGo]
    by_cases hcur : candidateName stem suffix c ∈ existing
    · rw [if_pos hcur]
      have hjc : c + 1 ≤ j := by
        rcases Nat.eq_or_lt_of_le hj1 with h | h
        · exact absurd hcur (h ▸ hj3)
        · omega
      obtain ⟨k, hk1, hk2, hk3, hk4⟩ := ih (c + 1) ⟨j, hjc, by omega, hj3⟩
      refine ⟨k, by omega, hk2, hk3, fun i hi1 hi2 => ?_⟩
      rcases Nat.eq_or_lt_of_le hi1 with h | h
      · exact h ▸ hcur
      · exact hk4 i h hi2
    · rw [if_neg hcur]
      exact ⟨c, Nat.le_refl c, rfl, hcur, fun i hi1 hi2 => by omega⟩

/-- Full specification of the collision resolver: a free desired name is
returned unchanged, and otherwise the result is `stem_k.ext` for the least
positive `k` whose candidate is free, every smaller candidate being taken. -/
theorem resolveName_least (existing : List String) (name : String) :
    (name ∉ existing → resolveName existing name = name) ∧
    (name ∈ existing →
      ∃ k, 1 ≤ k ∧
        resolveName existing name =
          candidateName (splitStemSuffix name).1 (splitStemSuffix name).2 k ∧
        candidateName (splitStemSuffix name).1 (splitStemSuffix name).2 k ∉ existing ∧
        ∀ i, 1 ≤ i → i < k →
          candidateName (splitStemSuffix name).1 (splitStemSuffix name).2 i ∈ existing) := by
  constructor
  · intro h
    rw [resolveName, resolveGo, if_neg h]
  · intro h
    rw [resolveName, resolveGo, if_pos h]
    obtain ⟨j, hj1, hj2, hj3⟩ :=
      exists_free_candidate existing (splitStemSuffix name).1 (splitStemSuffix name).2
    exact resolveGo_least existing _ _ (existing.length + 1) 1 ⟨j, hj1, by omega, hj3⟩

/-- The resolver never returns a name already present in the directory. -/
theorem resolveName_fresh (existing : List String) (name : String) :
    resolveName existing name ∉ existing := by
  by_cases h : name ∈ existing
  · obtain ⟨k, _, hk2, hk3, _⟩ := (resolveName_least existing name).2 h
    rw [hk2]
    exact hk3
  · rw [(resolveName_least existing name).1 h]
    exact h
/-! ### Lemmas about step 3 (the move loop) -/

theorem foldMove_frame (fails : Path → Bool) :
    ∀ (L : List Path) (st : RunState),
      (L.foldl (moveOne fails) st).fs.rootDirs = st.fs.rootDirs ∧
      (L.foldl (moveOne fails) st).fs.docsExists = st.fs.docsExists ∧
      (L.foldl (moveOne fails) st).fs.docs.dirs = st.fs.docs.dirs := by
  intro L
  induction L with
  | nil => intro st; exact ⟨rfl, rfl, rfl⟩
  | cons f L ih =>
    intro st
    rw [List.foldl_cons]
    have hm : (moveOne fails st f).fs.rootDirs = st.fs.rootDirs ∧
        (moveOne fails st f).fs.docsExists = st.fs.docsExists ∧
        (moveOne fails st f).fs.docs.dirs = st.fs.docs.dirs := by
      unfold moveOne
      split
      · exact ⟨rfl, rfl, rfl⟩
      · exact ⟨rfl, rfl, rfl⟩
    refine ⟨?_, ?_, ?_⟩
    · rw [(ih _).1, hm.1]
    · rw [(ih _).2.1, hm.2.1]
    · rw [(ih _).2.2, hm.2.2]

theorem foldMove_counts (fails : Path → Bool) :
    ∀ (L : List Path) (st : RunState),
      (L.foldl (moveOne fails) st).movedCount
        = st.movedCount + (L.filter (fun f => !fails f)).length ∧
      (L.foldl (moveOne fails) st).errorCount
        = st.errorCount + (L.filter fails).length := by
  intro L
  induction L with
  | nil => intro st; exact ⟨rfl, rfl⟩
  | cons f L ih =>
    intro st
    rw [List.foldl_cons, List.filter_cons, List.filter_cons]
    by_cases hf : fails f = true
    · have h1 : moveOne fails st f = { st with errorCount := st.errorCount + 1 } := by
        unfold moveOne; rw [if_pos hf]
      constructor
      · rw [(ih _).1, h1]; simp [hf]
      · rw [(ih _).2, h1]; simp [hf]; omega
    · rw [Bool.not_eq_true] at hf
      have hm : (moveOne fails st f).movedCount = st.movedCount + 1 := by
        unfold moveOne; rw [if_neg (by simp [hf])]
      have he : (moveOne fails st f).errorCount = st.errorCount := by
        unfold moveOne; rw [if_neg (by simp [hf])]
      constructor
      · rw [(ih _).1, hm]; simp [hf]; omega
      · rw [(ih _).2, he]; simp [hf]

theorem foldMove_files (fails : Path → Bool) :
    ∀ (L : List Path) (st : RunState),
      (L.foldl (moveOne fails) st).fs.docs.files
        = (L.filter (fun f => !fails f)).foldl List.erase st.fs.docs.files := by
  intro L
  induction L with
  | nil => intro st; rfl
  | cons f L ih =>
    intro st
    rw [List.foldl_cons, List.filter_cons]
    by_cases hf : fails f = true
    · have h1 : (moveOne fails st f).fs.docs.files = st.fs.docs.files := by
        unfold moveOne; rw [if_pos hf]
      rw [ih _, h1]
      simp [hf]
    · rw [Bool.not_eq_true] at hf
      have h1 : (moveOne fails st f).fs.docs.files = st.fs.docs.files.erase f := by
        unfold moveOne; rw [if_neg (by simp [hf])]
      rw [ih _, h1]
      simp [hf]

theorem foldMove_panda_map (fails : Path → Bool) :
    ∀ (L : List Path) (st : RunState),
      (L.foldl (moveOne fails) st).fs.panda.map dirOrigin
        = st.fs.panda.map dirOrigin
          ++ (L.filter (fun f => !fails f)).map (fun f => (classifyOf f, f)) := by
  intro L
  induction L with
  | nil => intro st; simp
  | cons f L ih =>
    intro st
    rw [List.foldl_cons, List.filter_cons]
    by_cases hf : fails f = true
    · have h1 : (moveOne fails st f).fs.panda = st.fs.panda := by
        unfold moveOne; rw [if_pos hf]
      rw [ih _, h1]
      simp [hf]
    · rw [Bool.not_eq_true] at hf
      have h1 : (moveOne fails st f).fs.panda
          = st.fs.panda ++ [⟨classifyOf f,
              resolveName (namesIn st.fs.panda (classifyOf f)) (fileNameOf f), f⟩] := by
        unfold moveOne; rw [if_neg (by simp [hf])]; rfl
      rw [ih _, h1]
      simp [hf, dirOrigin]

theorem foldMove_panda_isPrefixOf (fails : Path → Bool) :
    ∀ (L : List Path) (st : RunState),
      st.fs.panda <+: (L.foldl (moveOne fails) st).fs.panda := by
  intro L
  induction L with
  | nil => intro st; exact List.prefix_refl _
  | cons f L ih =>
    intro st
    rw [List.foldl_cons]
    refine List.IsPrefix.trans ?_ (ih (moveOne fails st f))
    unfold moveOne
    split
    · exact List.prefix_refl _
    · exact ⟨_, rfl⟩

theorem foldMove_keysNodup (fails : Path → Bool) :
    ∀ (L : List Path) (st : RunState),
      ((st.fs.panda.map pkey).Nodup) →
      (((L.foldl (moveOne fails) st).fs.panda.map pkey).Nodup) := by
  intro L
  induction L with
  | nil => intro st h; exact h
  | cons f L ih =>
    intro st h
    rw [List.foldl_cons]
    refine ih _ ?_
    unfold moveOne
    split
    · exact h
    · rw [List.map_append, List.nodup_append]
      refine ⟨h, List.nodup_singleton _, ?_⟩
      intro x hx hx1
      simp only [List.map_cons, List.map_nil, List.mem_singleton] at hx1
      subst hx1
      obtain ⟨e, he, hek⟩ := List.mem_map.mp hx
      have hdir : e.dir = classifyOf f := congrArg Prod.fst hek
      have hname : e.name
          = resolveName (namesIn st.fs.panda (classifyOf f)) (fileNameOf f) := by
        simpa [pkey] using congrArg Prod.snd hek
      apply resolveName_fresh (namesIn st.fs.panda (classifyOf f)) (fileNameOf f)
      rw [← hname]
      apply List.mem_map_of_mem
      rw [List.mem_filter]
      exact ⟨he, by simp [hdir]⟩

theorem foldMove_pandaDirs (fails : Path → Bool) :
    ∀ (L : List Path) (st : RunState) (d : String),
      (d ∈ (L.foldl (moveOne fails) st).fs.pandaDirs ↔
        d ∈ st.fs.pandaDirs ∨ d ∈ (L.filter (fun f => !fails f)).map classifyOf) := by
  intro L
  induction L with
  | nil => intro st d; simp
  | cons f L ih =>
    intro st d
    rw [List.foldl_cons, List.filter_cons]
    by_cases hf : fails f = true
    · have h1 : (moveOne fails st f).fs.pandaDirs = st.fs.pandaDirs := by
        unfold moveOne; rw [if_pos hf]
      rw [ih _ d, h1]
      simp [hf]
    · rw [Bool.not_eq_true] at hf
      have hmem : ∀ x, x ∈ (moveOne fails st f).fs.pandaDirs ↔
          x ∈ st.fs.pandaDirs ∨ x = classifyOf f := by
        intro x
        unfold moveOne
        rw [if_neg (by simp [hf])]
        show x ∈ (if classifyOf f ∈ st.fs.pandaDirs then st.fs.pandaDirs
          else st.fs.pandaDirs ++ [classifyOf f]) ↔ _
        split
        · constructor
          · exact fun hx => Or.inl hx
          · rintro (hx | rfl)
            · exact hx
            · assumption
        · simp
      rw [ih _ d]
      simp only [hmem, hf, Bool.not_false, if_pos, List.map_cons, List.mem_cons]
      tauto

/-- Erasing the members of `ks` one by one from a duplicate-free list is
filtering them out. -/
theorem foldl_erase_eq_filter :
    ∀ (ks l : List Path), l.Nodup →
      ks.foldl List.erase l = l.filter (fun x => decide (x ∉ ks)) := by
  intro ks
  induction ks with
  | nil => intro l h; simp
  | cons k ks ih =>
    intro l h
    rw [List.foldl_cons, ih _ (h.erase k), List.Nodup.erase_eq_filter h,
      List.filter_filter]
    refine List.filter_congr ?_
    intro x _
    by_cases h1 : x = k
    · simp [h1]
    · by_cases h2 : x ∈ ks <;> simp [h1, h2]

/-- After step 3 runs with no failures, no `*.md` file remains in `docs/`. -/
theorem step3_clears_md (st : RunState) (hnd : st.fs.docs.files.Nodup)
    (hd : st.fs.docsExists = true) :
    mdFiles (step3 noFail st).fs = [] := by
  unfold step3
  rw [hd, if_pos rfl]
  unfold mdFiles
  rw [foldMove_files]
  have hL : (st.fs.docs.files.filter mdGlob).filter (fun f => !noFail f)
      = st.fs.docs.files.filter mdGlob := by simp [noFail]
  rw [hL, foldl_erase_eq_filter _ _ hnd, List.filter_filter]
  apply List.filter_eq_nil_iff.mpr
  intro x hx
  by_cases hmd : mdGlob x = true
  · have hxm : x ∈ st.fs.docs.files.filter mdGlob := List.mem_filter.mpr ⟨hx, hmd⟩
    simp [hxm, hmd]
  · simp [hmd]

/-! ### Lemmas about step 2 (subdirectory renames) -/

theorem renameSubdir_frame (fs : FS) (m : String × String) :
    (renameSubdir fs m).rootDirs = fs.rootDirs ∧
    (renameSubdir fs m).docsExists = fs.docsExists ∧
    (renameSubdir fs m).docs = fs.docs := by
  unfold renameSubdir
  repeat' split
  all_goals exact ⟨rfl, rfl, rfl⟩

theorem step2_frame (fs : FS) :
    (step2 fs).rootDirs = fs.rootDirs ∧
    (step2 fs).docsExists = fs.docsExists ∧
    (step2 fs).docs = fs.docs := by
  unfold step2
  generalize SUBDIR_MAPPINGS = ms
  induction ms generalizing fs with
  | nil => exact ⟨rfl, rfl, rfl⟩
  | cons m ms ih =>
    rw [List.foldl_cons]
    obtain ⟨h1, h2, h3⟩ := ih (renameSubdir fs m)
    obtain ⟨g1, g2, g3⟩ := renameSubdir_frame fs m
    exact ⟨h1.trans g1, h2.trans g2, h3.trans g3⟩

/-- If every still-present legacy directory already has its decorated
counterpart, one rename pass changes nothing. -/
theorem foldRename_id :
    ∀ (ms : List (String × String)) (fs : FS),
      (∀ m ∈ ms, m.1 ∈ fs.pandaDirs → m.2 ∈ fs.pandaDirs) →
      ms.foldl renameSubdir fs = fs := by
  intro ms
  induction ms with
  | nil => intro fs _; rfl
  | cons m ms ih =>
    intro fs h
    rw [List.foldl_cons]
    have hm : renameSubdir fs m = fs := by
      unfold renameSubdir
      by_cases h1 : m.1 ∈ fs.pandaDirs
      · rw [if_pos h1, if_pos (h m (List.mem_cons_self m ms) h1)]
      · rw [if_neg h1]
    rw [hm]
    exact ih fs (fun m' hm' => h m' (List.mem_cons_of_mem m hm'))

theorem step2_id_of_done (fs : FS) (h : LegacyDone fs) : step2 fs = fs :=
  foldRename_id SUBDIR_MAPPINGS fs h

/-- `P m fs`: mapping `m` is "done" in `fs`. -/
theorem renameSubdir_preserves_done (fs : FS) (m m' : String × String)
    (h1 : m'.1 ≠ m.2) (h2 : m'.2 ≠ m.1)
    (hp : m.1 ∈ fs.pandaDirs → m.2 ∈ fs.pandaDirs) :
    m.1 ∈ (renameSubdir fs m').pandaDirs → m.2 ∈ (renameSubdir fs m').pandaDirs := by
  unfold renameSubdir
  by_cases ha : m'.1 ∈ fs.pandaDirs
  · rw [if_pos ha]
    by_cases hb : m'.2 ∈ fs.pandaDirs
    · rw [if_pos hb]; exact hp
    · rw [if_neg hb]
      intro hin
      obtain ⟨d, hd, hde⟩ := List.mem_map.mp hin
      by_cases hdm : d = m'.1
      · rw [if_pos hdm] at hde
        exact absurd hde h2
      · rw [if_neg hdm] at hde
        subst hde
        have := hp hd
        refine List.mem_map.mpr ⟨m.2, this, ?_⟩
        rw [if_neg (fun hc => h1 hc.symm)]
  · rw [if_neg ha]; exact hp

theorem foldRename_preserves_done :
    ∀ (ms : List (String × String)) (fs : FS) (m : String × String),
      (∀ m' ∈ ms, m'.1 ≠ m.2 ∧ m'.2 ≠ m.1) →
      (m.1 ∈ fs.pandaDirs → m.2 ∈ fs.pandaDirs) →
      (m.1 ∈ (ms.foldl renameSubdir fs).pandaDirs →
        m.2 ∈ (ms.foldl renameSubdir fs).pandaDirs) := by
  intro ms
  induction ms with
  | nil => intro fs m _ hp; exact hp
  | cons m' ms ih =>
    intro fs m hstr hp
    rw [List.foldl_cons]
    refine ih _ m (fun x hx => hstr x (List.mem_cons_of_mem m' hx)) ?_
    have h := hstr m' (List.mem_cons_self m' ms)
    exact renameSubdir_preserves_done fs m m' h.1 h.2 hp

/-- Processing a mapping makes it "done". -/
theorem renameSubdir_establishes_done (fs : FS) (m : String × String)
    (hne : m.1 ≠ m.2) :
    m.1 ∈ (renameSubdir fs m).pandaDirs → m.2 ∈ (renameSubdir fs m).pandaDirs := by
  unfold renameSubdir
  by_cases ha : m.1 ∈ fs.pandaDirs
  · rw [if_pos ha]
    by_cases hb : m.2 ∈ fs.pandaDirs
    · rw [if_pos hb]; exact fun _ => hb
    · rw [if_neg hb]
      intro hin
      obtain ⟨d, _, hde⟩ := List.mem_map.mp hin
      by_cases hdm : d = m.1
      · rw [if_pos hdm] at hde
        exact absurd hde.symm hne
      · rw [if_neg hdm] at hde
        exact absurd hde hdm
  · rw [if_neg ha]
    exact fun hc => absurd hc ha

theorem foldRename_done :
    ∀ (ms : List (String × String)) (fs : FS),
      (∀ m ∈ ms, ∀ m' ∈ ms, m'.1 ≠ m.2 ∧ m'.2 ≠ m.1 ∧ m.1 ≠ m.2) →
      ∀ m ∈ ms, m.1 ∈ (ms.foldl renameSubdir fs).pandaDirs →
        m.2 ∈ (ms.foldl renameSubdir fs).pandaDirs := by
  intro ms
  induction ms with
  | nil => intro fs _ m hm; exact absurd hm (List.not_mem_nil m)
  | cons m0 ms ih =>
    intro fs hstr m hm
    rw [List.foldl_cons]
    rcases List.mem_cons.mp hm with rfl | hm'
    · refine foldRename_preserves_done ms _ m ?_ ?_
      · intro m' hm'
        have := hstr m (List.mem_cons_self m ms) m' (List.mem_cons_of_mem m hm')
        exact ⟨this.1, this.2.1⟩
      · exact renameSubdir_establishes_done fs m
          (hstr m (List.mem_cons_self m ms) m (List.mem_cons_self m ms)).2.2
    · exact ih (renameSubdir fs m0)
        (fun a ha b hb => hstr a (List.mem_cons_of_mem m0 ha) b (List.mem_cons_of_mem m0 hb))
        m hm'

/-- The twelve legacy keys and twelve decorated values never coincide. -/
theorem mappings_distinct :
    ∀ m ∈ SUBDIR_MAPPINGS, ∀ m' ∈ SUBDIR_MAPPINGS,
      m'.1 ≠ m.2 ∧ m'.2 ≠ m.1 ∧ m.1 ≠ m.2 := by decide

theorem legacyDone_step2 (fs : FS) : LegacyDone (step2 fs) := by
  intro m hm
  exact foldRename_done SUBDIR_MAPPINGS fs
    (fun a ha b hb => mappings_distinct a ha b hb) m hm

/-- No legacy key is a decorated category name. -/
theorem legacy_not_category : ∀ m ∈ SUBDIR_MAPPINGS, m.1 ∉ categoryValues := by
  decide

theorem classifyOf_mem (f : Path) : classifyOf f ∈ categoryValues :=
  classifyLower_mem _ _

theorem renameSubdir_panda_wf (fs : FS) (m : String × String)
    (hnd : (fs.panda.map pkey).Nodup)
    (hcon : ∀ e ∈ fs.panda, e.dir ∈ fs.pandaDirs) :
    ((renameSubdir fs m).panda.map pkey).Nodup ∧
    (∀ e ∈ (renameSubdir fs m).panda, e.dir ∈ (renameSubdir fs m).pandaDirs) := by
  unfold renameSubdir
  by_cases ha : m.1 ∈ fs.pandaDirs
  · rw [if_pos ha]
    by_cases hb : m.2 ∈ fs.pandaDirs
    · rw [if_pos hb]; exact ⟨hnd, hcon⟩
    · rw [if_neg hb]
      constructor
      · have hmap : (fs.panda.map
            (fun e => if e.dir = m.1 then (⟨m.2, e.name, e.origin⟩ : PFile) else e)).map pkey
            = (fs.panda.map pkey).map
              (fun k => if k.1 = m.1 then (m.2, k.2) else k) := by
          rw [List.map_map, List.map_map]
          refine List.map_congr_left ?_
          intro e _
          by_cases hd : e.dir = m.1 <;> simp [pkey, hd]
        show ((fs.panda.map _).map pkey).Nodup
        rw [hmap]
        refine List.Nodup.map_on ?_ hnd
        intro x hx y hy hxy
        by_cases hx1 : x.1 = m.1 <;> by_cases hy1 : y.1 = m.1
        · rw [if_pos hx1, if_pos hy1] at hxy
          simp only [Prod.mk.injEq, true_and] at hxy
          exact Prod.ext (hx1.trans hy1.symm) hxy
        · rw [if_pos hx1, if_neg hy1] at hxy
          exfalso
          have hy2 : y.1 = m.2 := by rw [← hxy]
          obtain ⟨e, he, hek⟩ := List.mem_map.mp hy
          apply hb
          have hed : e.dir = m.2 := by rw [← hy2, ← hek]; rfl
          exact hed ▸ hcon e he
        · rw [if_neg hx1, if_pos hy1] at hxy
          exfalso
          have hx2 : x.1 = m.2 := by rw [hxy]
          obtain ⟨e, he, hek⟩ := List.mem_map.mp hx
          apply hb
          have hed : e.dir = m.2 := by rw [← hx2, ← hek]; rfl
          exact hed ▸ hcon e he
        · rw [if_neg hx1, if_neg hy1] at hxy
          exact hxy
      · intro e' he'
        obtain ⟨e, he, hee⟩ := List.mem_map.mp he'
        by_cases hd : e.dir = m.1
        · rw [if_pos hd] at hee
          subst hee
          show m.2 ∈ fs.pandaDirs.map _
          refine List.mem_map.mpr ⟨m.1, ha, ?_⟩
          rw [if_pos rfl]
        · rw [if_neg hd] at hee
          subst hee
          show e.dir ∈ fs.pandaDirs.map _
          refine List.mem_map.mpr ⟨e.dir, hcon e he, ?_⟩
          rw [if_neg hd]
  · rw [if_neg ha]; exact ⟨hnd, hcon⟩

theorem step2_panda_wf (fs : FS)
    (hnd : (fs.panda.map pkey).Nodup)
    (hcon : ∀ e ∈ fs.panda, e.dir ∈ fs.pandaDirs) :
    ((step2 fs).panda.map pkey).Nodup ∧
    (∀ e ∈ (step2 fs).panda, e.dir ∈ (step2 fs).pandaDirs) := by
  unfold step2
  generalize SUBDIR_MAPPINGS = ms
  induction ms generalizing fs with
  | nil => exact ⟨hnd, hcon⟩
  | cons m ms ih =>
    rw [List.foldl_cons]
    obtain ⟨h1, h2⟩ := renameSubdir_panda_wf fs m hnd hcon
    exact ih _ h1 h2

theorem legacyDone_step3 (fails : Path → Bool) (st : RunState)
    (h : LegacyDone st.fs) : LegacyDone (step3 fails st).fs := by
  unfold step3
  split
  · intro m hm hmem
    rw [foldMove_pandaDirs] at hmem ⊢
    rcases hmem with h1 | h2
    · exact Or.inl (h m hm h1)
    · exfalso
      obtain ⟨f, _, hf⟩ := List.mem_map.mp h2
      exact legacy_not_category m hm (hf ▸ classifyOf_mem f)
  · exact h

/-! ### Frame lemmas for steps 1, 4, 5 and the assembled run -/

theorem step1_mem (fs : FS) (hc : NEW_PANDA_CORE ∈ fs.rootDirs) :
    step1 fs = some fs := by
  unfold step1
  rw [if_pos (show OLD_PANDA_CORE ∈ fs.rootDirs from hc), if_pos hc]

theorem step1_not_mem (fs : FS) (hc : NEW_PANDA_CORE ∉ fs.rootDirs) :
    step1 fs = none := by
  unfold step1
  rw [if_neg (show OLD_PANDA_CORE ∉ fs.rootDirs from hc), if_neg hc]

theorem step4_frame (st : RunState) :
    (step4 st).fs.rootDirs = st.fs.rootDirs ∧
    (step4 st).fs.pandaDirs = st.fs.pandaDirs ∧
    (step4 st).fs.panda = st.fs.panda ∧
    (step4 st).fs.docsExists = st.fs.docsExists ∧
    (step4 st).fs.docs.files = st.fs.docs.files ∧
    (step4 st).movedCount = st.movedCount ∧
    (step4 st).errorCount = st.errorCount := by
  unfold step4
  split
  · exact ⟨rfl, rfl, rfl, rfl, rfl, rfl, rfl⟩
  · exact ⟨rfl, rfl, rfl, rfl, rfl, rfl, rfl⟩

theorem step5_frame (st : RunState) :
    (step5 st).1.fs.rootDirs = st.fs.rootDirs ∧
    (step5 st).1.fs.pandaDirs = st.fs.pandaDirs ∧
    (step5 st).1.fs.panda = st.fs.panda ∧
    (step5 st).1.fs.docs = st.fs.docs ∧
    (step5 st).1.movedCount = st.movedCount ∧
    (step5 st).1.errorCount = st.errorCount := by
  unfold step5
  repeat' split
  all_goals exact ⟨rfl, rfl, rfl, rfl, rfl, rfl⟩

theorem runMainF_some (fails : Path → Bool) (fs : FS)
    (hc : NEW_PANDA_CORE ∈ fs.rootDirs) :
    runMainF fails fs =
      { fs := (step5 (step4 (step3 fails ⟨step2 fs, 0, 0⟩))).1.fs,
        movedCount := (step5 (step4 (step3 fails ⟨step2 fs, 0, 0⟩))).1.movedCount,
        errorCount := (step5 (step4 (step3 fails ⟨step2 fs, 0, 0⟩))).1.errorCount,
        aborted := false, exitCode := 0,
        summary := if (step2 fs).docsExists then
          some ((step3 fails ⟨step2 fs, 0, 0⟩).movedCount,
                (step3 fails ⟨step2 fs, 0, 0⟩).errorCount) else none,
        remainingReport := (step5 (step4 (step3 fails ⟨step2 fs, 0, 0⟩))).2 } := by
  unfold runMainF
  rw [step1_mem fs hc]

/-! ### Lemmas about step 4 (pruning) -/

theorem pathKey_foldl_le (t : List String) :
    ∀ init : Nat, init ≤ t.foldl (fun acc c => acc + 1 + c.length) init := by
  induction t with
  | nil => intro init; exact Nat.le_refl init
  | cons c t ih =>
    intro init
    rw [List.foldl_cons]
    exact Nat.le_trans (by omega) (ih (init + 1 + c.length))

theorem pathKey_lt_of_underDir {a b : Path} (h : underDir a b) :
    pathKey a < pathKey b := by
  obtain ⟨⟨t, rfl⟩, hne⟩ := h
  have ht : t ≠ [] := by
    rintro rfl
    exact hne (List.append_nil a).symm
  obtain ⟨c, t, rfl⟩ := List.exists_cons_of_ne_nil ht
  show pathKey a < pathKey (a ++ c :: t)
  unfold pathKey
  rw [List.foldl_append, List.foldl_cons]
  calc a.foldl (fun acc c => acc + 1 + c.length) 0
      < a.foldl (fun acc c => acc + 1 + c.length) 0 + 1 + c.length := by omega
    _ ≤ _ := pathKey_foldl_le t _

theorem underDir_trans {a b c : Path} (h1 : underDir a b) (h2 : underDir b c) :
    underDir a c := by
  refine ⟨h1.1.trans h2.1, ?_⟩
  intro hc
  have k1 := pathKey_lt_of_underDir h1
  have k2 := pathKey_lt_of_underDir h2
  rw [hc] at k1
  omega

theorem underDir_take {f : Path} {k : Nat} (hk : k < f.length) :
    underDir (f.take k) f := by
  refine ⟨List.take_prefix k f, ?_⟩
  intro hc
  have hl := congrArg List.length hc
  rw [List.length_take] at hl
  omega

theorem parentDir_underDir {f : Path} (h : f ≠ []) :
    underDir (parentDir f) f := by
  have hl : 0 < f.length := List.length_pos.mpr h
  have : parentDir f = f.take (f.length - 1) := List.dropLast_eq_take f
  rw [this]
  exact underDir_take (by omega)

theorem parentDir_take_succ {f : Path} {k : Nat} (h : k + 1 ≤ f.length) :
    parentDir (f.take (k + 1)) = f.take k := by
  show (f.take (k + 1)).dropLast = f.take k
  rw [List.dropLast_eq_take, List.length_take, List.take_take]
  congr 1
  omega

theorem eq_take_of_underDir {d f : Path} (h : underDir d f) :
    d = f.take d.length ∧ d.length < f.length := by
  have h1 := List.prefix_iff_eq_take.mp h.1
  refine ⟨h1, ?_⟩
  rcases Nat.lt_or_ge d.length f.length with hl | hl
  · exact hl
  · exfalso
    apply h.2
    rw [h1, List.take_of_length_le hl]

/-- A directory with a file somewhere beneath it is not empty: either the
file or the next directory on the way down is a direct child. -/
theorem dirEmpty_false_of_under (files current : List Path) (d : Path)
    (hcl : ∀ f ∈ files, ∀ k, k < f.length → 0 < k → f.take k ∈ current)
    (f : Path) (hf : f ∈ files) (hu : underDir d f) :
    dirEmpty files current d = false := by
  rw [Bool.eq_false_iff]
  intro he
  unfold dirEmpty at he
  rw [Bool.and_eq_true, List.all_eq_true, List.all_eq_true] at he
  obtain ⟨hdtake, hdlen⟩ := eq_take_of_underDir hu
  by_cases hcase : f.length = d.length + 1
  · have hp : parentDir f = d := by
      rw [hdtake, ← parentDir_take_succ (by omega), ← hcase, List.take_length]
    have hb := he.1 f hf
    rw [bne_iff_ne] at hb
    exact hb hp
  · have hq : f.take (d.length + 1) ∈ current :=
      hcl f hf (d.length + 1) (by omega) (by omega)
    have hb := he.2 _ hq
    rw [bne_iff_ne] at hb
    apply hb
    rw [parentDir_take_succ (by omega), ← hdtake]

/-- Safety: the pruning pass never removes a directory that still has a
file anywhere beneath it — every strict ancestor of a file survives. -/
theorem pruneFold_keeps_ancestors (files : List Path) :
    ∀ (order current : List Path),
      (∀ f ∈ files, ∀ k, k < f.length → 0 < k → f.take k ∈ current) →
      ∀ f ∈ files, ∀ k, k < f.length → 0 < k →
        f.take k ∈ pruneFold files order current := by
  intro order
  induction order with
  | nil => intro current h; exact h
  | cons d rest ih =>
    intro current h
    simp only [pruneFold]
    by_cases he : dirEmpty files current d = true
    · rw [if_pos he]
      refine ih _ ?_
      intro f hf k hk hk0
      have hmem := h f hf k hk hk0
      have hne : f.take k ≠ d := by
        rintro rfl
        have hfalse := dirEmpty_false_of_under files current (f.take k) h f hf
          (underDir_take hk)
        simp [hfalse] at he
      exact (List.mem_erase_of_ne hne).mpr hmem
    · rw [if_neg he]
      exact ih _ h

/-- Completeness: with children processed before parents, no transitively
empty directory survives the pass. -/
theorem pruneFold_removes_empty (files : List Path)
    (hfne : ∀ f ∈ files, f ≠ []) :
    ∀ (order current : List Path),
      current.Nodup →
      (∀ e ∈ current, e ≠ []) →
      order.Pairwise (fun a b => ¬ underDir a b) →
      (∀ d ∈ current, TransEmpty files d → d ∈ order) →
      ∀ d ∈ pruneFold files order current, ¬ TransEmpty files d := by
  intro order
  induction order with
  | nil =>
    intro current _ _ _ hinv d hd hte
    exact absurd (hinv d hd hte) (List.not_mem_nil d)
  | cons d0 rest ih =>
    intro current hnd hdne hpw hinv
    simp only [pruneFold]
    have hpw' := List.pairwise_cons.mp hpw
    by_cases hte0 : TransEmpty files d0
    · have hemp : dirEmpty files current d0 = true := by
        unfold dirEmpty
        rw [Bool.and_eq_true, List.all_eq_true, List.all_eq_true]
        constructor
        · intro f hf
          rw [bne_iff_ne]
          intro hpa
          exact hte0 f hf (hpa ▸ parentDir_underDir (hfne f hf))
        · intro e he
          rw [bne_iff_ne]
          intro hpe
          have hue : underDir d0 e := hpe ▸ parentDir_underDir (hdne e he)
          have htee : TransEmpty files e := fun f hf hu =>
            hte0 f hf (underDir_trans hue hu)
          have he_rest : e ∈ rest := by
            rcases List.mem_cons.mp (hinv e he htee) with rfl | hr
            · exact absurd rfl hue.2
            · exact hr
          exact hpw'.1 e he_rest hue
      rw [if_pos hemp]
      refine ih _ (hnd.erase d0) (fun e he => hdne e (List.erase_subset _ _ he))
        hpw'.2 ?_
      intro d hd hte
      have h2 := (hnd.mem_erase_iff).mp hd
      rcases List.mem_cons.mp (hinv d h2.2 hte) with rfl | hr
      · exact absurd rfl h2.1
      · exact hr
    · by_cases hemp : dirEmpty files current d0 = true
      · rw [if_pos hemp]
        refine ih _ (hnd.erase d0) (fun e he => hdne e (List.erase_subset _ _ he))
          hpw'.2 ?_
        intro d hd hte
        have h2 := (hnd.mem_erase_iff).mp hd
        rcases List.mem_cons.mp (hinv d h2.2 hte) with rfl | hr
        · exact absurd hte hte0
        · exact hr
      · rw [if_neg hemp]
        refine ih _ hnd hdne hpw'.2 ?_
        intro d hd hte
        rcases List.mem_cons.mp (hinv d hd hte) with rfl | hr
        · exact absurd hte hte0
        · exact hr

theorem pruneFold_sublist (files : List Path) :
    ∀ (order current : List Path), List.Sublist (pruneFold files order current) current := by
  intro order
  induction order with
  | nil => intro current; exact List.Sublist.refl current
  | cons d rest ih =>
    intro current
    simp only [pruneFold]
    split
    · exact (ih _).trans (List.erase_sublist d current)
    · exact ih _

theorem pruneFold_no_remove (files : List Path) :
    ∀ (order current : List Path),
      (∀ d ∈ order, dirEmpty files current d = false) →
      pruneFold files order current = current := by
  intro order
  induction order with
  | nil => intro current _; rfl
  | cons d rest ih =>
    intro current h
    simp only [pruneFold]
    rw [if_neg (by simp [h d (List.mem_cons_self d rest)])]
    exact ih current (fun x hx => h x (List.mem_cons_of_mem d hx))

theorem pruneStep_files (st : DocsState) : (pruneStep st).files = st.files := rfl

theorem sortDirs_perm (dirs : List Path) : List.Perm (sortDirsForPrune dirs) dirs :=
  List.perm_insertionSort _ dirs

theorem sortDirs_mem (dirs : List Path) (a : Path) :
    a ∈ sortDirsForPrune dirs ↔ a ∈ dirs := (sortDirs_perm dirs).mem_iff

theorem sortDirs_nodup (dirs : List Path) (h : dirs.Nodup) :
    (sortDirsForPrune dirs).Nodup :=
  (sortDirs_perm dirs).nodup_iff.mpr h

theorem sortDirs_pairwise_le (dirs : List Path) :
    (sortDirsForPrune dirs).Pairwise (fun a b => pathKey b ≤ pathKey a) :=
  @List.sorted_insertionSort Path (fun a b => pathKey b ≤ pathKey a)
    (fun _ _ => Nat.decLe _ _)
    ⟨fun a b => Nat.le_total (pathKey b) (pathKey a)⟩
    ⟨fun _ _ _ h1 h2 => Nat.le_trans h2 h1⟩ dirs

/-- The sort guarantees no ancestor is visited before a directory inside
it: a strictly longer path string means a strictly deeper entry. -/
theorem sortDirs_pairwise (dirs : List Path) :
    (sortDirsForPrune dirs).Pairwise (fun a b => ¬ underDir a b) := by
  refine (sortDirs_pairwise_le dirs).imp ?_
  intro a b h hu
  exact absurd h (Nat.not_le.mpr (pathKey_lt_of_underDir hu))

/-- The pruning step removes exactly the transitively empty directories. -/
theorem pruneStep_mem (st : DocsState) (h : DocsWF st) (d : Path) :
    d ∈ (pruneStep st).dirs ↔ d ∈ st.dirs ∧ ¬ TransEmpty st.files d := by
  constructor
  · intro hd
    have hsub := pruneFold_sublist st.files (sortDirsForPrune st.dirs)
      (sortDirsForPrune st.dirs)
    refine ⟨(sortDirs_mem _ _).mp (hsub.subset hd), ?_⟩
    exact pruneFold_removes_empty st.files h.filesNonempty _ _
      (sortDirs_nodup _ h.dirsNodup)
      (fun e he => h.dirsNonempty e ((sortDirs_mem _ _).mp he))
      (sortDirs_pairwise _)
      (fun e he _ => he)
      d hd
  · rintro ⟨hmem, hne⟩
    unfold TransEmpty at hne
    push_neg at hne
    obtain ⟨f, hf, hu⟩ := hne
    obtain ⟨hdtake, hdlen⟩ := eq_take_of_underDir hu
    have h0 : 0 < d.length := List.length_pos.mpr (h.dirsNonempty d hmem)
    have hk := pruneFold_keeps_ancestors st.files (sortDirsForPrune st.dirs)
      (sortDirsForPrune st.dirs)
      (fun f' hf' k hk hk0 => (sortDirs_mem _ _).mpr (h.closed f' hf' k hk hk0))
      f hf d.length hdlen h0
    rw [← hdtake] at hk
    exact hk

theorem pruneStep_wf (st : DocsState) (h : DocsWF st) : DocsWF (pruneStep st) := by
  constructor
  · exact h.filesNodup
  · exact List.Nodup.sublist
      (pruneFold_sublist st.files (sortDirsForPrune st.dirs) (sortDirsForPrune st.dirs))
      (sortDirs_nodup _ h.dirsNodup)
  · exact h.filesNonempty
  · intro d hd
    exact h.dirsNonempty d ((pruneStep_mem st h d).mp hd).1
  · intro f hf k hk hk0
    refine (pruneStep_mem st h (f.take k)).mpr ⟨h.closed f hf k hk hk0, ?_⟩
    intro hte
    exact hte f hf (underDir_take hk)

theorem pruneStep_sorted (st : DocsState) :
    (pruneStep st).dirs.Pairwise (fun a b => pathKey b ≤ pathKey a) :=
  List.Pairwise.sublist
    (pruneFold_sublist st.files (sortDirsForPrune st.dirs) (sortDirsForPrune st.dirs))
    (sortDirs_pairwise_le st.dirs)

/-- Pruning an already-pruned tree (its directory list still in sorted
order, no transitively empty directory left) changes nothing at all. -/
theorem pruneStep_id_of_sorted (st : DocsState)
    (hsorted : st.dirs.Pairwise (fun a b => pathKey b ≤ pathKey a))
    (hcl : ∀ f ∈ st.files, ∀ k, k < f.length → 0 < k → f.take k ∈ st.dirs)
    (hne : ∀ d ∈ st.dirs, ¬ TransEmpty st.files d) :
    pruneStep st = st := by
  have hms : sortDirsForPrune st.dirs = st.dirs :=
    List.Sorted.insertionSort_eq hsorted
  have hnr : pruneFold st.files st.dirs st.dirs = st.dirs := by
    apply pruneFold_no_remove
    intro d hd
    have hd2 := hne d hd
    unfold TransEmpty at hd2
    push_neg at hd2
    obtain ⟨f, hf, hu⟩ := hd2
    exact dirEmpty_false_of_under st.files st.dirs d hcl f hf hu
  unfold pruneStep
  rw [hms, hnr]

/-- Filtering the survivors of the first filter out of the base list
selects exactly the elements the first filter rejected. -/
theorem filter_not_mem_filter (L : List Path) (p : Path → Bool) :
    L.filter (fun x => decide (x ∉ L.filter (fun f => !p f))) = L.filter p := by
  apply List.filter_congr
  intro x hx
  by_cases hpx : p x = true
  · have : x ∉ L.filter (fun f => !p f) := by
      intro hc
      have := (List.mem_filter.mp hc).2
      rw [hpx] at this
      exact Bool.noConfusion this
    simp [this, hpx]
  · rw [Bool.not_eq_true] at hpx
    have : x ∈ L.filter (fun f => !p f) := List.mem_filter.mpr ⟨hx, by rw [hpx]; rfl⟩
    simp [this, hpx]

/-- `mdGlob` commutes with removing a set of paths. -/
theorem mdFilter_comm (files0 P : List Path) :
    (files0.filter (fun x => decide (x ∉ P))).filter mdGlob
      = (files0.filter mdGlob).filter (fun x => decide (x ∉ P)) := by
  rw [List.filter_filter, List.filter_filter]
  apply List.filter_congr
  intro x _
  rw [Bool.and_comm]

/-- A run over a state with no `docs/` directory only performs the
renaming steps: the final state is `step2 fs` and nothing is moved. -/
theorem run_nodocs (fails : Path → Bool) (fs : FS)
    (hc : NEW_PANDA_CORE ∈ fs.rootDirs) (hd : fs.docsExists = false) :
    (runMainF fails fs).fs = step2 fs ∧ (runMainF fails fs).movedCount = 0 := by
  have hd2 : (step2 fs).docsExists = false := by rw [(step2_frame fs).2.1, hd]
  rw [runMainF_some fails fs hc]
  have hs3 : step3 fails ⟨step2 fs, 0, 0⟩ = ⟨step2 fs, 0, 0⟩ := by
    unfold step3
    rw [if_neg]
    intro hcon
    rw [hd2] at hcon
    exact Bool.noConfusion hcon
  have hs4 : step4 (⟨step2 fs, 0, 0⟩ : RunState) = ⟨step2 fs, 0, 0⟩ := by
    unfold step4
    rw [if_neg]
    intro hcon
    rw [hd2] at hcon
    exact Bool.noConfusion hcon
  have hs5 : step5 (⟨step2 fs, 0, 0⟩ : RunState) = (⟨step2 fs, 0, 0⟩, none) := by
    unfold step5
    rw [if_neg]
    intro hcon
    rw [hd2] at hcon
    exact Bool.noConfusion hcon
  rw [hs3, hs4, hs5]
  dsimp only
  exact ⟨rfl, rfl⟩

theorem filter_length_split (p : Path → Bool) (l : List Path) :
    (l.filter p).length + (l.filter (fun x => !p x)).length = l.length := by
  induction l with
  | nil => rfl
  | cons x l ih =>
    rw [List.filter_cons, List.filter_cons]
    by_cases hx : p x = true <;> simp [hx] <;> omega

set_option maxHeartbeats 2000000 in
/-- Characterization of one run over a state whose `docs/` exists: every
component of the final filesystem, in terms of the initial one. -/
theorem run_fs_char (fails : Path → Bool) (fs0 : FS)
    (hc : NEW_PANDA_CORE ∈ fs0.rootDirs) (hd : fs0.docsExists = true)
    (hdw : DocsWF fs0.docs)
    (hkey2 : ((step2 fs0).panda.map pkey).Nodup) :
    (runMainF fails fs0).fs.rootDirs = fs0.rootDirs ∧
    LegacyDone (runMainF fails fs0).fs ∧
    (runMainF fails fs0).fs.docs.files
      = fs0.docs.files.filter (fun x => decide (x ∉ movedList fails fs0)) ∧
    (∀ d, d ∈ (runMainF fails fs0).fs.docs.dirs ↔
      d ∈ fs0.docs.dirs ∧ ¬ TransEmpty (runMainF fails fs0).fs.docs.files d) ∧
    (runMainF fails fs0).fs.docs.dirs.Pairwise (fun a b => pathKey b ≤ pathKey a) ∧
    DocsWF (runMainF fails fs0).fs.docs ∧
    ((runMainF fails fs0).fs.docsExists = false ↔
      ((runMainF fails fs0).fs.docs.files = [] ∧
       (runMainF fails fs0).fs.docs.dirs = [])) ∧
    (runMainF fails fs0).fs.panda.map dirOrigin
      = (step2 fs0).panda.map dirOrigin
        ++ (movedList fails fs0).map (fun f => (classifyOf f, f)) ∧
    ((runMainF fails fs0).fs.panda.map pkey).Nodup ∧
    (∀ d, d ∈ (runMainF fails fs0).fs.pandaDirs ↔
      d ∈ (step2 fs0).pandaDirs ∨ d ∈ (movedList fails fs0).map classifyOf) ∧
    (runMainF fails fs0).movedCount = (movedList fails fs0).length := by
  have hd2 : (step2 fs0).docsExists = true := by rw [(step2_frame fs0).2.1, hd]
  have hdocs2 : (step2 fs0).docs = fs0.docs := (step2_frame fs0).2.2
  have hmd : mdFiles (step2 fs0) = mdFiles fs0 := by unfold mdFiles; rw [hdocs2]
  have hs3 : step3 fails ⟨step2 fs0, 0, 0⟩
      = (mdFiles fs0).foldl (moveOne fails) ⟨step2 fs0, 0, 0⟩ := by
    unfold step3
    rw [if_pos (show ((⟨step2 fs0, 0, 0⟩ : RunState)).fs.docsExists = true from hd2),
      hmd]
  have hff3 : (step3 fails ⟨step2 fs0, 0, 0⟩).fs.docs.files
      = fs0.docs.files.filter (fun x => decide (x ∉ movedList fails fs0)) := by
    unfold movedList
    rw [hs3, foldMove_files]
    dsimp only
    rw [hdocs2]
    exact foldl_erase_eq_filter ((mdFiles fs0).filter (fun f => !fails f))
      fs0.docs.files hdw.filesNodup
  have hdirs3 : (step3 fails ⟨step2 fs0, 0, 0⟩).fs.docs.dirs = fs0.docs.dirs := by
    rw [hs3, (foldMove_frame fails (mdFiles fs0) _).2.2]
    dsimp only
    rw [hdocs2]
  have hdocsE3 : (step3 fails ⟨step2 fs0, 0, 0⟩).fs.docsExists = true := by
    rw [hs3, (foldMove_frame fails (mdFiles fs0) _).2.1]
    exact hd2
  have hroot3 : (step3 fails ⟨step2 fs0, 0, 0⟩).fs.rootDirs = fs0.rootDirs := by
    rw [hs3, (foldMove_frame fails (mdFiles fs0) _).1]
    exact (step2_frame fs0).1
  have hpanda3 : (step3 fails ⟨step2 fs0, 0, 0⟩).fs.panda.map dirOrigin
      = (step2 fs0).panda.map dirOrigin
        ++ (movedList fails fs0).map (fun f => (classifyOf f, f)) := by
    unfold movedList
    rw [hs3, foldMove_panda_map]
  have hkey3 : ((step3 fails ⟨step2 fs0, 0, 0⟩).fs.panda.map pkey).Nodup := by
    rw [hs3]
    exact foldMove_keysNodup fails (mdFiles fs0) ⟨step2 fs0, 0, 0⟩ hkey2
  have hpd3 : ∀ d, d ∈ (step3 fails ⟨step2 fs0, 0, 0⟩).fs.pandaDirs ↔
      d ∈ (step2 fs0).pandaDirs ∨ d ∈ (movedList fails fs0).map classifyOf := by
    intro d
    unfold movedList
    rw [hs3]
    exact foldMove_pandaDirs fails (mdFiles fs0) ⟨step2 fs0, 0, 0⟩ d
  have hdone3 : LegacyDone (step3 fails ⟨step2 fs0, 0, 0⟩).fs := by
    intro m hm h1
    rcases (hpd3 m.1).mp h1 with h2 | h2
    · exact (hpd3 m.2).mpr (Or.inl (legacyDone_step2 fs0 m hm h2))
    · exfalso
      obtain ⟨f, _, hf⟩ := List.mem_map.mp h2
      exact legacy_not_category m hm (hf ▸ classifyOf_mem f)
  have hmv3 : (step3 fails ⟨step2 fs0, 0, 0⟩).movedCount
      = (movedList fails fs0).length := by
    unfold movedList
    rw [hs3, (foldMove_counts fails (mdFiles fs0) _).1]
    simp
  have hwf3 : DocsWF (step3 fails ⟨step2 fs0, 0, 0⟩).fs.docs := by
    refine ⟨?_, ?_, ?_, ?_, ?_⟩
    · rw [hff3]; exact hdw.filesNodup.filter _
    · rw [hdirs3]; exact hdw.dirsNodup
    · rw [hff3]
      intro f hf
      exact hdw.filesNonempty f (List.mem_filter.mp hf).1
    · rw [hdirs3]; exact hdw.dirsNonempty
    · rw [hff3, hdirs3]
      intro f hf k hk hk0
      exact hdw.closed f (List.mem_filter.mp hf).1 k hk hk0
  have h4 := step4_frame (step3 fails ⟨step2 fs0, 0, 0⟩)
  have h5 := step5_frame (step4 (step3 fails ⟨step2 fs0, 0, 0⟩))
  have hdocs4 : (step4 (step3 fails ⟨step2 fs0, 0, 0⟩)).fs.docs
      = pruneStep (step3 fails ⟨step2 fs0, 0, 0⟩).fs.docs := by
    unfold step4
    rw [if_pos hdocsE3]
  have hdocsE4 : (step4 (step3 fails ⟨step2 fs0, 0, 0⟩)).fs.docsExists = true := by
    rw [h4.2.2.2.1]
    exact hdocsE3
  have hfin : runMainF fails fs0 =
      { fs := (step5 (step4 (step3 fails ⟨step2 fs0, 0, 0⟩))).1.fs,
        movedCount := (step5 (step4 (step3 fails ⟨step2 fs0, 0, 0⟩))).1.movedCount,
        errorCount := (step5 (step4 (step3 fails ⟨step2 fs0, 0, 0⟩))).1.errorCount,
        aborted := false, exitCode := 0,
        summary := if (step2 fs0).docsExists then
          some ((step3 fails ⟨step2 fs0, 0, 0⟩).movedCount,
                (step3 fails ⟨step2 fs0, 0, 0⟩).errorCount) else none,
        remainingReport := (step5 (step4 (step3 fails ⟨step2 fs0, 0, 0⟩))).2 } :=
    runMainF_some fails fs0 hc
  have hFdocs : (runMainF fails fs0).fs.docs
      = pruneStep (step3 fails ⟨step2 fs0, 0, 0⟩).fs.docs := by
    rw [hfin]
    dsimp only
    rw [h5.2.2.2.1, hdocs4]
  have hFfiles : (runMainF fails fs0).fs.docs.files
      = fs0.docs.files.filter (fun x => decide (x ∉ movedList fails fs0)) := by
    rw [hFdocs, pruneStep_files]
    exact hff3
  refine ⟨?_, ?_, hFfiles, ?_, ?_, ?_, ?_, ?_, ?_, ?_, ?_⟩
  · rw [hfin]
    dsimp only
    rw [h5.1, h4.1, hroot3]
  · intro m hm h1
    rw [hfin] at h1 ⊢
    dsimp only at h1 ⊢
    rw [h5.2.1, h4.2.1] at h1 ⊢
    exact hdone3 m hm h1
  · intro d
    rw [hFfiles, hFdocs]
    have hpm := pruneStep_mem (step3 fails ⟨step2 fs0, 0, 0⟩).fs.docs hwf3 d
    rw [hdirs3, hff3] at hpm
    exact hpm
  · rw [hFdocs]
    exact pruneStep_sorted _
  · rw [hFdocs]
    exact pruneStep_wf _ hwf3
  · rw [hfin]
    dsimp only
    rw [h5.2.2.2.1, hdocs4]
    unfold step5
    rw [if_pos hdocsE4]
    by_cases he : ((step4 (step3 fails ⟨step2 fs0, 0, 0⟩)).fs.docs.files.isEmpty
        && (step4 (step3 fails ⟨step2 fs0, 0, 0⟩)).fs.docs.dirs.isEmpty) = true
    · rw [if_pos he]
      rw [Bool.and_eq_true, List.isEmpty_iff, List.isEmpty_iff, hdocs4] at he
      dsimp only
      exact ⟨fun _ => he, fun _ => rfl⟩
    · rw [if_neg he]
      rw [Bool.and_eq_true, List.isEmpty_iff, List.isEmpty_iff, hdocs4] at he
      dsimp only
      rw [hdocsE4]
      constructor
      · intro hcon
        exact absurd hcon (by simp)
      · intro hcon
        exact absurd hcon he
  · rw [hfin]
    dsimp only
    rw [h5.2.2.1, h4.2.2.1, hpanda3]
  · rw [hfin]
    dsimp only
    rw [h5.2.2.1, h4.2.2.1]
    exact hkey3
  · intro d
    rw [hfin]
    dsimp only
    rw [h5.2.1, h4.2.1]
    exact hpd3 d
  · rw [hfin]
    dsimp only
    rw [h5.2.2.2.2.1, h4.2.2.2.2.2.1, hmv3]

theorem movedList_noFail (fs : FS) : movedList noFail fs = mdFiles fs := by
  unfold movedList
  simp [noFail]

/-- After the moves, filtering the enumerated survivors away and then
re-enumerating yields exactly the failed items. -/
theorem md_after (files0 : List Path) (fails : Path → Bool) :
    (files0.filter (fun x =>
        decide (x ∉ (files0.filter mdGlob).filter (fun f => !fails f)))).filter mdGlob
      = (files0.filter mdGlob).filter fails := by
  rw [mdFilter_comm]
  exact filter_not_mem_filter (files0.filter mdGlob) fails

/-- Running again on a state a completed run produced changes nothing:
step 2 skips every mapping, step 3 enumerates nothing, step 4 finds no
empty directory, and step 5 leaves the non-empty root in place. -/
theorem second_run_noop (fs1 : FS)
    (hc : NEW_PANDA_CORE ∈ fs1.rootDirs)
    (hdone : LegacyDone fs1)
    (hmdempty : mdFiles fs1 = [])
    (hsorted : fs1.docs.dirs.Pairwise (fun a b => pathKey b ≤ pathKey a))
    (hwf : DocsWF fs1.docs)
    (hnte : ∀ d ∈ fs1.docs.dirs, ¬ TransEmpty fs1.docs.files d)
    (hde : fs1.docsExists = false ↔ (fs1.docs.files = [] ∧ fs1.docs.dirs = [])) :
    (runMainF noFail fs1).fs = fs1 ∧ (runMainF noFail fs1).movedCount = 0 := by
  have hstep2 : step2 fs1 = fs1 := step2_id_of_done fs1 hdone
  by_cases hd1 : fs1.docsExists = true
  · rw [runMainF_some noFail fs1 hc, hstep2]
    have hs3 : step3 noFail ⟨fs1, 0, 0⟩ = ⟨fs1, 0, 0⟩ := by
      unfold step3
      rw [if_pos (show (⟨fs1, 0, 0⟩ : RunState).fs.docsExists = true from hd1)]
      dsimp only
      rw [hmdempty, List.foldl_nil]
    have hs4 : step4 (⟨fs1, 0, 0⟩ : RunState) = ⟨fs1, 0, 0⟩ := by
      unfold step4
      rw [if_pos (show (⟨fs1, 0, 0⟩ : RunState).fs.docsExists = true from hd1)]
      dsimp only
      rw [pruneStep_id_of_sorted fs1.docs hsorted hwf.closed hnte]
    have hne : ¬(fs1.docs.files.isEmpty && fs1.docs.dirs.isEmpty) = true := by
      rw [Bool.and_eq_true, List.isEmpty_iff, List.isEmpty_iff]
      intro hcon
      have hfalse := hde.mpr hcon
      rw [hd1] at hfalse
      exact Bool.noConfusion hfalse
    have hs5 : step5 (⟨fs1, 0, 0⟩ : RunState)
        = (⟨fs1, 0, 0⟩, some (fs1.docs.files.length + fs1.docs.dirs.length)) := by
      unfold step5
      rw [if_pos (show (⟨fs1, 0, 0⟩ : RunState).fs.docsExists = true from hd1),
        if_neg hne]
    rw [hs3, hs4, hs5]
    dsimp only
    exact ⟨rfl, rfl⟩
  · have hd1' : fs1.docsExists = false := by
      cases h : fs1.docsExists
      · rfl
      · exact absurd h hd1
    obtain ⟨ha, hb⟩ := run_nodocs noFail fs1 hc hd1'
    rw [hstep2] at ha
    exact ⟨ha, hb⟩

/-- A second run immediately after a completed run moves nothing and
leaves the state identical. -/
theorem second_run_idempotent (fs0 : FS) (hwf : FSWF fs0)
    (hc : NEW_PANDA_CORE ∈ fs0.rootDirs) :
    (runMainF noFail (runMainF noFail fs0).fs).movedCount = 0 ∧
    (runMainF noFail (runMainF noFail fs0).fs).fs = (runMainF noFail fs0).fs := by
  have hkey2 := (step2_panda_wf fs0 hwf.pandaKeysNodup hwf.pandaConsistent).1
  by_cases hd0 : fs0.docsExists = true
  · obtain ⟨cr1, cr2, cr3, cr4, cr5, cr6, cr7, cr8, cr9, cr10, cr11⟩ :=
      run_fs_char noFail fs0 hc hd0 hwf.docs hkey2
    have hc1 : NEW_PANDA_CORE ∈ (runMainF noFail fs0).fs.rootDirs := by
      rw [cr1]; exact hc
    have hmde : mdFiles (runMainF noFail fs0).fs = [] := by
      unfold mdFiles
      rw [cr3]
      rw [show movedList noFail fs0
          = (fs0.docs.files.filter mdGlob).filter (fun f => !noFail f) from rfl]
      rw [md_after fs0.docs.files noFail]
      simp [noFail]
    have hnte : ∀ d ∈ (runMainF noFail fs0).fs.docs.dirs,
        ¬ TransEmpty (runMainF noFail fs0).fs.docs.files d :=
      fun d hd => ((cr4 d).mp hd).2
    obtain ⟨ha, hb⟩ := second_run_noop (runMainF noFail fs0).fs hc1 cr2 hmde cr5 cr6
      hnte cr7
    exact ⟨hb, ha⟩
  · have hd0' : fs0.docsExists = false := by
      cases h : fs0.docsExists
      · rfl
      · exact absurd h hd0
    obtain ⟨hA, _⟩ := run_nodocs noFail fs0 hc hd0'
    have hroot2 : NEW_PANDA_CORE ∈ (step2 fs0).rootDirs := by
      rw [(step2_frame fs0).1]; exact hc
    have hd2' : (step2 fs0).docsExists = false := by
      rw [(step2_frame fs0).2.1]; exact hd0'
    obtain ⟨hC, hC2⟩ := run_nodocs noFail (step2 fs0) hroot2 hd2'
    rw [step2_id_of_done (step2 fs0) (legacyDone_step2 fs0)] at hC
    rw [hA]
    exact ⟨hC2, hC⟩

set_option maxHeartbeats 2000000 in
/-- Re-running cleanly after a partial run (any per-item failure pattern)
reaches the same final tree as one uninterrupted run, up to
collision-suffix assignment: same placement keys well-formedness, same
placed documents per category, same residual source files, same residual
directories, same category directories, same root existence. -/
theorem rerun_partial (fails : Path → Bool) (fs0 : FS) (hwf : FSWF fs0)
    (hc : NEW_PANDA_CORE ∈ fs0.rootDirs) :
    ((runMainF noFail (runMainF fails fs0).fs).fs.panda.map pkey).Nodup ∧
    List.Perm
      ((runMainF noFail (runMainF fails fs0).fs).fs.panda.map dirOrigin)
      ((runMainF noFail fs0).fs.panda.map dirOrigin) ∧
    (runMainF noFail (runMainF fails fs0).fs).fs.docs.files
      = (runMainF noFail fs0).fs.docs.files ∧
    List.Perm (runMainF noFail (runMainF fails fs0).fs).fs.docs.dirs
      (runMainF noFail fs0).fs.docs.dirs ∧
    (∀ d, d ∈ (runMainF noFail (runMainF fails fs0).fs).fs.pandaDirs ↔
      d ∈ (runMainF noFail fs0).fs.pandaDirs) ∧
    (runMainF noFail (runMainF fails fs0).fs).fs.docsExists
      = (runMainF noFail fs0).fs.docsExists := by
  have hkey2 := (step2_panda_wf fs0 hwf.pandaKeysNodup hwf.pandaConsistent).1
  by_cases hd0 : fs0.docsExists = true
  · obtain ⟨cr1, cr2, cr3, cr4, cr5, cr6, cr7, cr8, cr9, cr10, cr11⟩ :=
      run_fs_char noFail fs0 hc hd0 hwf.docs hkey2
    obtain ⟨p1, p2, p3, p4, p5, p6, p7, p8, p9, p10, p11⟩ :=
      run_fs_char fails fs0 hc hd0 hwf.docs hkey2
    rw [movedList_noFail fs0] at cr3 cr8
    have hPmem : ∀ y, y ∈ movedList fails fs0 ↔
        (y ∈ mdFiles fs0 ∧ fails y = false) := by
      intro y
      unfold movedList
      rw [List.mem_filter]
      simp
    have hLQ : mdFiles (runMainF fails fs0).fs = (mdFiles fs0).filter fails := by
      unfold mdFiles
      rw [p3]
      rw [show movedList fails fs0
          = (fs0.docs.files.filter mdGlob).filter (fun f => !fails f) from rfl]
      exact md_after fs0.docs.files fails
    have hPQ : List.Perm (movedList fails fs0 ++ (mdFiles fs0).filter fails)
        (mdFiles fs0) := by
      have h1 := List.filter_append_perm fails (mdFiles fs0)
      have h2 : List.Perm
          (movedList fails fs0 ++ (mdFiles fs0).filter fails)
          ((mdFiles fs0).filter fails ++ movedList fails fs0) :=
        List.perm_append_comm
      exact h2.trans h1
    by_cases hd1 : (runMainF fails fs0).fs.docsExists = true
    · have hc1 : NEW_PANDA_CORE ∈ (runMainF fails fs0).fs.rootDirs := by
        rw [p1]; exact hc
      have hkey2' : ((step2 (runMainF fails fs0).fs).panda.map pkey).Nodup := by
        rw [step2_id_of_done (runMainF fails fs0).fs p2]; exact p9
      obtain ⟨r1, r2, r3, r4, r5, r6, r7, r8, r9, r10, r11⟩ :=
        run_fs_char noFail (runMainF fails fs0).fs hc1 hd1 p6 hkey2'
      have hstep2id : step2 (runMainF fails fs0).fs = (runMainF fails fs0).fs :=
        step2_id_of_done (runMainF fails fs0).fs p2
      have hmvQ : movedList noFail (runMainF fails fs0).fs
          = (mdFiles fs0).filter fails := by
        rw [movedList_noFail (runMainF fails fs0).fs, hLQ]
      have hsub : ∀ f ∈ (runMainF noFail (runMainF fails fs0).fs).fs.docs.files,
          f ∈ (runMainF fails fs0).fs.docs.files := by
        intro f hf
        rw [r3] at hf
        exact (List.mem_filter.mp hf).1
      rw [hmvQ] at r3
      rw [p3] at r3
      rw [hstep2id, hmvQ] at r8
      have hfe : (runMainF noFail (runMainF fails fs0).fs).fs.docs.files
          = (runMainF noFail fs0).fs.docs.files := by
        rw [r3, cr3, List.filter_filter]
        apply List.filter_congr
        intro x hx
        by_cases hxl : x ∈ mdFiles fs0
        · by_cases hxp : x ∈ movedList fails fs0
          · simp [hxp, hxl]
          · have hfx : fails x = true := by
              by_contra hno
              rw [Bool.not_eq_true] at hno
              exact hxp ((hPmem x).mpr ⟨hxl, hno⟩)
            have hxq : x ∈ (mdFiles fs0).filter fails :=
              List.mem_filter.mpr ⟨hxl, hfx⟩
            simp [hxq, hxl]
        · have hxp : x ∉ movedList fails fs0 := fun hcon =>
            hxl ((hPmem x).mp hcon).1
          have hxq : x ∉ (mdFiles fs0).filter fails := fun hcon =>
            hxl (List.mem_filter.mp hcon).1
          simp [hxp, hxq, hxl]
      have hsub' : ∀ f ∈ (runMainF noFail fs0).fs.docs.files,
          f ∈ (runMainF fails fs0).fs.docs.files := by
        rw [← hfe]
        exact hsub
      have hmemdirs : ∀ d,
          d ∈ (runMainF noFail (runMainF fails fs0).fs).fs.docs.dirs ↔
          d ∈ (runMainF noFail fs0).fs.docs.dirs := by
        intro d
        rw [r4 d, p4 d, cr4 d, hfe]
        constructor
        · rintro ⟨⟨h1, _⟩, h2⟩
          exact ⟨h1, h2⟩
        · rintro ⟨h1, h2⟩
          exact ⟨⟨h1, fun hte => h2 (fun f hf => hte f (hsub' f hf))⟩, h2⟩
      refine ⟨r9, ?_, hfe, ?_, ?_, ?_⟩
      · rw [r8, p8, cr8, List.append_assoc, ← List.map_append]
        exact List.Perm.append_left _
          (hPQ.map (fun f => (classifyOf f, f)))
      · exact (List.perm_ext_iff_of_nodup r6.dirsNodup cr6.dirsNodup).mpr hmemdirs
      · intro d
        have r10d := r10 d
        rw [hstep2id, hmvQ] at r10d
        have cr10d := cr10 d
        rw [movedList_noFail fs0] at cr10d
        rw [r10d, p10 d, cr10d, or_assoc]
        have hmm : (d ∈ (movedList fails fs0).map classifyOf ∨
            d ∈ ((mdFiles fs0).filter fails).map classifyOf) ↔
            d ∈ (mdFiles fs0).map classifyOf := by
          rw [← List.mem_append, ← List.map_append]
          exact (hPQ.map classifyOf).mem_iff
        rw [hmm]
      · have hbool : ∀ a b : Bool, (a = false ↔ b = false) → a = b := by decide
        apply hbool
        rw [r7, cr7, hfe]
        constructor
        · rintro ⟨h1, h2⟩
          refine ⟨h1, List.eq_nil_iff_forall_not_mem.mpr fun d hd => ?_⟩
          have hmem := (hmemdirs d).mpr hd
          rw [h2] at hmem
          exact absurd hmem (List.not_mem_nil d)
        · rintro ⟨h1, h2⟩
          refine ⟨h1, List.eq_nil_iff_forall_not_mem.mpr fun d hd => ?_⟩
          have hmem := (hmemdirs d).mp hd
          rw [h2] at hmem
          exact absurd hmem (List.not_mem_nil d)
    · have hd1' : (runMainF fails fs0).fs.docsExists = false := by
        cases h : (runMainF fails fs0).fs.docsExists
        · rfl
        · exact absurd h hd1
      have hempty := p7.mp hd1'
      have hc1 : NEW_PANDA_CORE ∈ (runMainF fails fs0).fs.rootDirs := by
        rw [p1]; exact hc
      obtain ⟨hfe0, _⟩ := run_nodocs noFail (runMainF fails fs0).fs hc1 hd1'
      rw [step2_id_of_done (runMainF fails fs0).fs p2] at hfe0
      have hQnil : (mdFiles fs0).filter fails = [] := by
        rw [← hLQ]
        unfold mdFiles
        rw [hempty.1]
        rfl
      have hPL : List.Perm (movedList fails fs0) (mdFiles fs0) := by
        have h := hPQ
        rw [hQnil, List.append_nil] at h
        exact h
      have hall : ∀ x ∈ fs0.docs.files, x ∈ movedList fails fs0 := by
        intro x hx
        by_contra hxn
        have hmem : x ∈ (runMainF fails fs0).fs.docs.files := by
          rw [p3]
          exact List.mem_filter.mpr ⟨hx, decide_eq_true hxn⟩
        rw [hempty.1] at hmem
        exact absurd hmem (List.not_mem_nil x)
      have hclnf : (runMainF noFail fs0).fs.docs.files = [] := by
        rw [cr3]
        apply List.eq_nil_iff_forall_not_mem.mpr
        intro x hx
        have hx1 := List.mem_filter.mp hx
        have hxL : x ∈ mdFiles fs0 := ((hPmem x).mp (hall x hx1.1)).1
        exact absurd hxL (of_decide_eq_true hx1.2)
      have hclnd : (runMainF noFail fs0).fs.docs.dirs = [] := by
        apply List.eq_nil_iff_forall_not_mem.mpr
        intro d hd
        have h2 := ((cr4 d).mp hd).2
        rw [hclnf] at h2
        exact h2 (fun f hf => absurd hf (List.not_mem_nil f))
      refine ⟨?_, ?_, ?_, ?_, ?_, ?_⟩
      · rw [hfe0]; exact p9
      · rw [hfe0, p8, cr8]
        exact List.Perm.append_left _
          (hPL.map (fun f => (classifyOf f, f)))
      · rw [hfe0, hempty.1, hclnf]
      · rw [hfe0, hempty.2, hclnd]
      · intro d
        have cr10d := cr10 d
        rw [movedList_noFail fs0] at cr10d
        rw [hfe0, p10 d, cr10d]
        rw [show d ∈ (movedList fails fs0).map classifyOf ↔
            d ∈ (mdFiles fs0).map classifyOf from
            (hPL.map classifyOf).mem_iff]
      · rw [hfe0, hd1', (cr7.mpr ⟨hclnf, hclnd⟩)]
  · have hd0' : fs0.docsExists = false := by
      cases h : fs0.docsExists
      · rfl
      · exact absurd h hd0
    obtain ⟨hA, _⟩ := run_nodocs fails fs0 hc hd0'
    obtain ⟨hB, _⟩ := run_nodocs noFail fs0 hc hd0'
    have hroot2 : NEW_PANDA_CORE ∈ (step2 fs0).rootDirs := by
      rw [(step2_frame fs0).1]; exact hc
    have hd2' : (step2 fs0).docsExists = false := by
      rw [(step2_frame fs0).2.1]; exact hd0'
    obtain ⟨hC, _⟩ := run_nodocs noFail (step2 fs0) hroot2 hd2'
    rw [step2_id_of_done (step2 fs0) (legacyDone_step2 fs0)] at hC
    rw [hA, hC, hB]
    exact ⟨hkey2, List.Perm.refl _, rfl, List.Perm.refl _, fun d => Iff.rfl, rfl⟩

/-! ### Claim theorems -/

/-- C1: classification is total — for every relative parent-directory name
and every file name, `map_file_to_category` returns exactly one of the
twelve fixed categories (it is a function and cannot throw), the twelve
decorated names are pairwise distinct, and an input matched by no rule
lands in the catch-all Reference category. -/
theorem C1_classify_total (dirName fileName : String) :
    map_file_to_category dirName fileName ∈ categoryValues ∧
    categoryValues.length = 12 ∧ categoryValues.Nodup ∧
    (matchesAnyRule dirName fileName = false →
      map_file_to_category dirName fileName = smLookup "12_REFERENCE") :=
  ⟨classifyLower_mem _ _, by decide, by decide,
    fun h => classifyLower_catchall _ _ h⟩

theorem C1_classify_total_witness :
    matchesAnyRule "" "misc.md" = false ∧
    map_file_to_category "" "misc.md" ∈ categoryValues ∧
    map_file_to_category "" "misc.md" = smLookup "12_REFERENCE" :=
  ⟨by decide, (C1_classify_total "" "misc.md").1,
    (C1_classify_total "" "misc.md").2.2.2 (by decide)⟩

/-- C4: the collision resolver returns a free desired name unchanged;
otherwise it returns `stem_k.ext` for the least positive `k` whose
candidate does not exist in the directory, probing in increasing order
(every smaller candidate is taken); in particular inserting `report.md`
into a directory containing `report.md` yields `report_1.md`, and
inserting another `report.md` afterwards yields `report_2.md`. -/
theorem C4_resolver (existing : List String) (name : String) :
    ((name ∉ existing → resolveName existing name = name) ∧
      (name ∈ existing →
        ∃ k, 1 ≤ k ∧
          resolveName existing name =
            candidateName (splitStemSuffix name).1 (splitStemSuffix name).2 k ∧
          candidateName (splitStemSuffix name).1 (splitStemSuffix name).2 k ∉ existing ∧
          ∀ i, 1 ≤ i → i < k →
            candidateName (splitStemSuffix name).1 (splitStemSuffix name).2 i ∈ existing)) ∧
    resolveName ["report.md"] "report.md" = "report_1.md" ∧
    resolveName ["report.md", "report_1.md"] "report.md" = "report_2.md" :=
  ⟨resolveName_least existing name, by decide, by decide⟩

theorem C4_resolver_witness :
    ("report.md" ∈ ["report.md"]) ∧
    (∃ k, 1 ≤ k ∧
      resolveName ["report.md"] "report.md" =
        candidateName (splitStemSuffix "report.md").1 (splitStemSuffix "report.md").2 k ∧
      candidateName (splitStemSuffix "report.md").1 (splitStemSuffix "report.md").2 k
        ∉ ["report.md"] ∧
      ∀ i, 1 ≤ i → i < k →
        candidateName (splitStemSuffix "report.md").1 (splitStemSuffix "report.md").2 i
          ∈ ["report.md"]) :=
  ⟨by decide, (C4_resolver ["report.md"] "report.md").1.2 (by decide)⟩

/-- C3: during the move loop the Tree Mutator never overwrites an existing
file: every file present before survives, and the (directory, name) keys —
distinct on a real filesystem — stay pairwise distinct, i.e. every move
lands on a name that did not exist in its target directory at move time. -/
theorem C3_no_overwrite (fails : Path → Bool) (st : RunState)
    (h : (st.fs.panda.map pkey).Nodup) :
    (∀ e ∈ st.fs.panda, e ∈ (step3 fails st).fs.panda) ∧
    ((step3 fails st).fs.panda.map pkey).Nodup := by
  constructor
  · intro e he
    unfold step3
    split
    · exact (foldMove_panda_isPrefixOf fails (mdFiles st.fs) st).subset he
    · exact he
  · unfold step3
    split
    · exact foldMove_keysNodup fails (mdFiles st.fs) st h
    · exact h

theorem C3_no_overwrite_witness :
    (∀ e ∈ ([⟨"c", "report.md", []⟩] : List PFile),
      e ∈ (step3 noFail ⟨⟨[], ["c"], [⟨"c", "report.md", []⟩], true,
        ⟨[[".", "report.md"]], []⟩⟩, 0, 0⟩).fs.panda) ∧
    (((step3 noFail ⟨⟨[], ["c"], [⟨"c", "report.md", []⟩], true,
        ⟨[[".", "report.md"]], []⟩⟩, 0, 0⟩).fs.panda.map pkey).Nodup) :=
  C3_no_overwrite noFail ⟨⟨[], ["c"], [⟨"c", "report.md", []⟩], true,
    ⟨[[".", "report.md"]], []⟩⟩, 0, 0⟩ (by decide)

/-- C9: the container-rename step never renames anything: the legacy and
the decorated container constants are the identical string, so the branch
performing a rename is unreachable — for every starting state step 1
either returns the state unchanged or, when the container is absent,
reports `none` and the whole run leaves the filesystem untouched. -/
theorem C9_rename_unreachable :
    OLD_PANDA_CORE = NEW_PANDA_CORE ∧
    ∀ fs : FS,
      (∀ fs', step1 fs = some fs' → fs' = fs) ∧
      (step1 fs = none →
        OLD_PANDA_CORE ∉ fs.rootDirs ∧
        (runMain fs).fs = fs ∧ (runMain fs).movedCount = 0) := by
  refine ⟨rfl, fun fs => ⟨?_, ?_⟩⟩
  · intro fs' h1
    by_cases hm : NEW_PANDA_CORE ∈ fs.rootDirs
    · rw [step1_mem fs hm] at h1
      exact (Option.some.injEq _ _ ▸ h1).symm
    · rw [step1_not_mem fs hm] at h1
      exact absurd h1 (Option.noConfusion)
  · intro h1
    by_cases hm : NEW_PANDA_CORE ∈ fs.rootDirs
    · rw [step1_mem fs hm] at h1
      exact absurd h1 (Option.noConfusion)
    · refine ⟨hm, ?_, ?_⟩ <;>
        · unfold runMain runMainF
          rw [step1_not_mem fs hm]

theorem C9_rename_unreachable_witness :
    (∀ fs', step1 ⟨["docs"], [], [], true, ⟨[], []⟩⟩ = some fs' →
      fs' = ⟨["docs"], [], [], true, ⟨[], []⟩⟩) ∧
    (OLD_PANDA_CORE ∉ (["docs"] : List String) ∧
      (runMain ⟨["docs"], [], [], true, ⟨[], []⟩⟩).fs = ⟨["docs"], [], [], true, ⟨[], []⟩⟩ ∧
      (runMain ⟨["docs"], [], [], true, ⟨[], []⟩⟩).movedCount = 0) :=
  ⟨(C9_rename_unreachable.2 ⟨["docs"], [], [], true, ⟨[], []⟩⟩).1,
   (C9_rename_unreachable.2 ⟨["docs"], [], [], true, ⟨[], []⟩⟩).2 (by decide)⟩

/-- C6 counterexample: with the container directory absent (a structural
failure), the run aborts before any mutation but the process exit code is
still 0 — the claim "exits non-zero exactly when a structural failure
occurs" is false on the code, which never calls `sys.exit`. -/
theorem C6_counterexample :
    (runMain ⟨["docs"], [], [], true, ⟨[], []⟩⟩).aborted = true ∧
    (runMain ⟨["docs"], [], [], true, ⟨[], []⟩⟩).exitCode = 0 ∧
    (runMain ⟨["docs"], [], [], true, ⟨[], []⟩⟩).fs
      = ⟨["docs"], [], [], true, ⟨[], []⟩⟩ := by
  decide

/-- C6 (amended): the entry point exits with code 0 in every case — on
completion regardless of how many per-item errors occurred, and also on a
structural failure, which aborts the run before any mutation (state
unchanged, nothing moved) but still exits 0. -/
theorem C6_exit_code (fails : Path → Bool) (fs : FS) :
    (runMainF fails fs).exitCode = 0 ∧
    ((runMainF fails fs).aborted = true →
      (runMainF fails fs).fs = fs ∧ (runMainF fails fs).movedCount = 0) := by
  unfold runMainF
  cases h : step1 fs
  · exact ⟨rfl, fun _ => ⟨rfl, rfl⟩⟩
  · exact ⟨rfl, fun hab => absurd hab (by simp)⟩

theorem C6_exit_code_witness :
    (runMainF noFail ⟨["x"], [], [], false, ⟨[], []⟩⟩).exitCode = 0 ∧
    (runMainF noFail ⟨["x"], [], [], false, ⟨[], []⟩⟩).fs
      = ⟨["x"], [], [], false, ⟨[], []⟩⟩ :=
  ⟨(C6_exit_code noFail _).1, ((C6_exit_code noFail _).2 (by decide)).1⟩

/-- C5: the prune step removes exactly the transitively empty residual
directories (children are visited before their parents because the walk is
ordered by decreasing path-string length); on the claim's example tree
`a/b/c` whose only file was moved out, `a/`, `a/b/` and `a/b/c/` are all
removed, while a remaining `a/b/d/other.md` keeps `a/`, `a/b/`, `a/b/d/`;
finally the source root is removed iff nothing remains under it, and
otherwise the count of remaining entries is reported. -/
theorem C5_prune_exact :
    (∀ st : DocsState, DocsWF st →
      (pruneStep st).files = st.files ∧
      (∀ d, d ∈ (pruneStep st).dirs ↔ d ∈ st.dirs ∧ ¬ TransEmpty st.files d)) ∧
    (pruneStep ⟨[], [["a"], ["a", "b"], ["a", "b", "c"]]⟩).dirs = [] ∧
    (pruneStep ⟨[["a", "b", "d", "other.md"]],
        [["a"], ["a", "b"], ["a", "b", "c"], ["a", "b", "d"]]⟩).dirs
      = [["a", "b", "d"], ["a", "b"], ["a"]] ∧
    (∀ rs : RunState, rs.fs.docsExists = true →
      (((step5 rs).1.fs.docsExists = false) ↔
        (rs.fs.docs.files = [] ∧ rs.fs.docs.dirs = [])) ∧
      ((rs.fs.docs.files ≠ [] ∨ rs.fs.docs.dirs ≠ []) →
        (step5 rs).2 = some (rs.fs.docs.files.length + rs.fs.docs.dirs.length))) := by
  refine ⟨?_, by decide, by decide, ?_⟩
  · intro st h
    exact ⟨rfl, fun d => pruneStep_mem st h d⟩
  · intro rs hd
    unfold step5
    rw [if_pos hd]
    by_cases he : rs.fs.docs.files.isEmpty && rs.fs.docs.dirs.isEmpty
    · rw [if_pos he]
      rw [Bool.and_eq_true, List.isEmpty_iff, List.isEmpty_iff] at he
      constructor
      · exact ⟨fun _ => he, fun _ => rfl⟩
      · intro hne
        exact absurd he (by tauto)
    · rw [if_neg he]
      rw [Bool.and_eq_true, List.isEmpty_iff, List.isEmpty_iff] at he
      constructor
      · rw [hd]
        constructor
        · intro hc; exact absurd hc (by simp)
        · intro hc; exact absurd hc he
      · intro _; rfl

theorem C5_prune_exact_witness :
    ((pruneStep ⟨[["a", "b", "d", "other.md"]],
        [["a"], ["a", "b"], ["a", "b", "c"], ["a", "b", "d"]]⟩).files
      = [["a", "b", "d", "other.md"]] ∧
     (["a", "b"] ∈ (pruneStep ⟨[["a", "b", "d", "other.md"]],
        [["a"], ["a", "b"], ["a", "b", "c"], ["a", "b", "d"]]⟩).dirs ↔
       ["a", "b"] ∈ [["a"], ["a", "b"], ["a", "b", "c"], ["a", "b", "d"]] ∧
       ¬ TransEmpty [["a", "b", "d", "other.md"]] ["a", "b"])) ∧
    ((step5 ⟨⟨[], [], [], true, ⟨[], [["a"]]⟩⟩, 0, 0⟩).2 = some 1) :=
  ⟨⟨(C5_prune_exact.1 _ ⟨by decide, by decide, by decide, by decide, by decide⟩).1,
    (C5_prune_exact.1 _ ⟨by decide, by decide, by decide, by decide, by decide⟩).2
      ["a", "b"]⟩,
   (C5_prune_exact.2.2.2 _ rfl).2 (by decide)⟩

/-- C10: pruning removes no regular file, and never removes a directory
with any file beneath it — a directory is deleted only when empty at
deletion time, so the set of files in the tree is preserved. -/
theorem C10_prune_safety (st : DocsState) (h : DocsWF st) :
    (pruneStep st).files = st.files ∧
    ∀ d ∈ st.dirs, (∃ f ∈ st.files, underDir d f) → d ∈ (pruneStep st).dirs := by
  refine ⟨rfl, ?_⟩
  rintro d hd ⟨f, hf, hu⟩
  exact (pruneStep_mem st h d).mpr ⟨hd, fun hte => hte f hf hu⟩

theorem C10_prune_safety_witness :
    (pruneStep ⟨[["a", "f.md"]], [["a"]]⟩).files = [["a", "f.md"]] ∧
    ["a"] ∈ (pruneStep ⟨[["a", "f.md"]], [["a"]]⟩).dirs :=
  ⟨(C10_prune_safety _ ⟨by decide, by decide, by decide, by decide, by decide⟩).1,
   (C10_prune_safety _ ⟨by decide, by decide, by decide, by decide, by decide⟩).2
     ["a"] (by decide) ⟨["a", "f.md"], by decide, by decide, by decide⟩⟩

/-- C7: a per-item failure during a move never aborts the run — the run
completes, every enumerated document is processed (the moved and errored
counts partition the enumeration, so processing continued past every
failure), the error count equals the number of failing items, and the
final summary reports both counts. -/
theorem C7_per_item_failure (fails : Path → Bool) (fs : FS)
    (hc : NEW_PANDA_CORE ∈ fs.rootDirs) (hd : fs.docsExists = true) :
    (runMainF fails fs).aborted = false ∧
    (runMainF fails fs).movedCount
      = ((mdFiles fs).filter (fun f => !fails f)).length ∧
    (runMainF fails fs).errorCount = ((mdFiles fs).filter fails).length ∧
    (runMainF fails fs).movedCount + (runMainF fails fs).errorCount
      = (mdFiles fs).length ∧
    (runMainF fails fs).summary
      = some ((runMainF fails fs).movedCount, (runMainF fails fs).errorCount) := by
  have hd2 : (step2 fs).docsExists = true := by rw [(step2_frame fs).2.1, hd]
  have hmd : mdFiles (step2 fs) = mdFiles fs := by
    unfold mdFiles
    rw [(step2_frame fs).2.2]
  have hs3 : step3 fails ⟨step2 fs, 0, 0⟩
      = (mdFiles fs).foldl (moveOne fails) ⟨step2 fs, 0, 0⟩ := by
    unfold step3
    rw [if_pos (show (⟨step2 fs, 0, 0⟩ : RunState).fs.docsExists = true from hd2), hmd]
  have hmv : (step3 fails ⟨step2 fs, 0, 0⟩).movedCount
      = ((mdFiles fs).filter (fun f => !fails f)).length := by
    rw [hs3, (foldMove_counts fails (mdFiles fs) _).1]
    simp
  have her : (step3 fails ⟨step2 fs, 0, 0⟩).errorCount
      = ((mdFiles fs).filter fails).length := by
    rw [hs3, (foldMove_counts fails (mdFiles fs) _).2]
    simp
  rw [runMainF_some fails fs hc]
  have h5 := step5_frame (step4 (step3 fails ⟨step2 fs, 0, 0⟩))
  have h4 := step4_frame (step3 fails ⟨step2 fs, 0, 0⟩)
  refine ⟨rfl, ?_, ?_, ?_, ?_⟩
  · dsimp only
    rw [h5.2.2.2.2.1, h4.2.2.2.2.2.1, hmv]
  · dsimp only
    rw [h5.2.2.2.2.2, h4.2.2.2.2.2.2, her]
  · dsimp only
    rw [h5.2.2.2.2.1, h4.2.2.2.2.2.1, hmv, h5.2.2.2.2.2, h4.2.2.2.2.2.2, her,
      Nat.add_comm]
    exact filter_length_split fails (mdFiles fs)
  · dsimp only
    rw [if_pos hd2, h5.2.2.2.2.1, h4.2.2.2.2.2.1, h5.2.2.2.2.2,
      h4.2.2.2.2.2.2]

theorem C7_per_item_failure_witness :
    (runMainF (fun p => p == ["a.md"])
        ⟨["╠═══ PANDA_CORE ═══╣", "docs"], [], [], true,
          ⟨[["a.md"], ["b.md"]], []⟩⟩).aborted = false ∧
    (runMainF (fun p => p == ["a.md"])
        ⟨["╠═══ PANDA_CORE ═══╣", "docs"], [], [], true,
          ⟨[["a.md"], ["b.md"]], []⟩⟩).movedCount
      = ((mdFiles ⟨["╠═══ PANDA_CORE ═══╣", "docs"], [], [], true,
          ⟨[["a.md"], ["b.md"]], []⟩⟩).filter
            (fun f => !(f == ["a.md"]))).length ∧
    (runMainF (fun p => p == ["a.md"])
        ⟨["╠═══ PANDA_CORE ═══╣", "docs"], [], [], true,
          ⟨[["a.md"], ["b.md"]], []⟩⟩).errorCount
      = ((mdFiles ⟨["╠═══ PANDA_CORE ═══╣", "docs"], [], [], true,
          ⟨[["a.md"], ["b.md"]], []⟩⟩).filter (fun p => p == ["a.md"])).length :=
  ⟨(C7_per_item_failure _ _ (by decide) (by decide)).1,
   (C7_per_item_failure _ _ (by decide) (by decide)).2.1,
   (C7_per_item_failure _ _ (by decide) (by decide)).2.2.1⟩

/-- C8 counterexample: document enumeration is not format-agnostic — the
run enumerates `docs_dir.rglob("*.md")` only, so a regular file
`docs/notes.txt` is never a candidate: a run over a tree holding exactly
that file moves nothing, places nothing in the container, and leaves the
file where it was. -/
theorem C8_counterexample :
    (runMain ⟨["╠═══ PANDA_CORE ═══╣", "docs"], [], [], true,
        ⟨[["notes.txt"]], []⟩⟩).movedCount = 0 ∧
    ["notes.txt"] ∈ (runMain ⟨["╠═══ PANDA_CORE ═══╣", "docs"], [], [], true,
        ⟨[["notes.txt"]], []⟩⟩).fs.docs.files ∧
    (runMain ⟨["╠═══ PANDA_CORE ═══╣", "docs"], [], [], true,
        ⟨[["notes.txt"]], []⟩⟩).fs.panda = [] := by
  decide

/-- C8 (amended): every regular file under the source root whose name
matches `*.md` is a candidate and is classified and moved by the
(error-free) run into its classified category; files with any other name
are not candidates and stay where they are. -/
theorem C8_md_enumeration (fs : FS)
    (hc : NEW_PANDA_CORE ∈ fs.rootDirs) (hd : fs.docsExists = true)
    (hnd : fs.docs.files.Nodup) :
    ∀ f ∈ fs.docs.files,
      (mdGlob f = true →
        f ∉ (runMain fs).fs.docs.files ∧
        ∃ e ∈ (runMain fs).fs.panda, e.origin = f ∧ e.dir = classifyOf f) ∧
      (mdGlob f = false → f ∈ (runMain fs).fs.docs.files) := by
  have hd2 : (step2 fs).docsExists = true := by rw [(step2_frame fs).2.1, hd]
  have hmd : mdFiles (step2 fs) = mdFiles fs := by
    unfold mdFiles
    rw [(step2_frame fs).2.2]
  have hnd2 : (step2 fs).docs.files.Nodup := by rw [(step2_frame fs).2.2]; exact hnd
  have hfiles2 : (step2 fs).docs.files = fs.docs.files := by
    rw [(step2_frame fs).2.2]
  have hs3 : step3 noFail ⟨step2 fs, 0, 0⟩
      = (mdFiles fs).foldl (moveOne noFail) ⟨step2 fs, 0, 0⟩ := by
    unfold step3
    rw [if_pos (show (⟨step2 fs, 0, 0⟩ : RunState).fs.docsExists = true from hd2), hmd]
  have hff : (step3 noFail ⟨step2 fs, 0, 0⟩).fs.docs.files
      = fs.docs.files.filter (fun x => decide (x ∉ mdFiles fs)) := by
    rw [hs3, foldMove_files]
    have hL : (mdFiles fs).filter (fun f => !noFail f) = mdFiles fs := by
      simp [noFail]
    rw [hL]
    dsimp only
    rw [hfiles2]
    exact foldl_erase_eq_filter (mdFiles fs) fs.docs.files hnd
  have hpanda : (step3 noFail ⟨step2 fs, 0, 0⟩).fs.panda.map dirOrigin
      = (step2 fs).panda.map dirOrigin
        ++ (mdFiles fs).map (fun f => (classifyOf f, f)) := by
    rw [hs3, foldMove_panda_map]
    have hL : (mdFiles fs).filter (fun f => !noFail f) = mdFiles fs := by
      simp [noFail]
    rw [hL]
  have hrun : (runMain fs).fs.docs.files = (step3 noFail ⟨step2 fs, 0, 0⟩).fs.docs.files
      ∧ (runMain fs).fs.panda = (step3 noFail ⟨step2 fs, 0, 0⟩).fs.panda := by
    unfold runMain
    rw [runMainF_some noFail fs hc]
    have h5 := step5_frame (step4 (step3 noFail ⟨step2 fs, 0, 0⟩))
    have h4 := step4_frame (step3 noFail ⟨step2 fs, 0, 0⟩)
    constructor
    · dsimp only
      rw [h5.2.2.2.1]
      exact h4.2.2.2.2.1
    · dsimp only
      rw [h5.2.2.1, h4.2.2.1]
  intro f hf
  constructor
  · intro hmdf
    have hfmem : f ∈ mdFiles fs := List.mem_filter.mpr ⟨hf, hmdf⟩
    constructor
    · rw [hrun.1, hff]
      intro hcontra
      have := (List.mem_filter.mp hcontra).2
      simp [hfmem] at this
    · have : (classifyOf f, f) ∈ (runMain fs).fs.panda.map dirOrigin := by
        rw [hrun.2, hpanda]
        refine List.mem_append.mpr (Or.inr ?_)
        exact List.mem_map_of_mem _ hfmem
      obtain ⟨e, he, hee⟩ := List.mem_map.mp this
      refine ⟨e, he, ?_, ?_⟩
      · exact congrArg Prod.snd hee
      · exact congrArg Prod.fst hee
  · intro hmdf
    rw [hrun.1, hff]
    refine List.mem_filter.mpr ⟨hf, ?_⟩
    have : f ∉ mdFiles fs := by
      intro hc2
      rw [(List.mem_filter.mp hc2).2] at hmdf
      exact Bool.noConfusion hmdf
    simp [this]

/-- C2 counterexample to the strict reading: after a partial run (one
per-item failure) a clean re-run completes the consolidation, but the
final tree is NOT the same as an uninterrupted run's — the collision
suffixes are assigned differently (`a_2.md` exists only in the clean
run's tree), so the two final filesystems differ. -/
theorem C2_counterexample :
    "a_2.md" ∈ ((runMainF noFail ⟨["╠═══ PANDA_CORE ═══╣", "docs"], [], [],
        true, ⟨[["d1", "a_1.md"], ["d2", "a.md"], ["d3", "a.md"]],
          [["d1"], ["d2"], ["d3"]]⟩⟩).fs.panda.map PFile.name) ∧
    "a_2.md" ∉ ((runMainF noFail (runMainF (fun p => p == ["d1", "a_1.md"])
        ⟨["╠═══ PANDA_CORE ═══╣", "docs"], [], [], true,
          ⟨[["d1", "a_1.md"], ["d2", "a.md"], ["d3", "a.md"]],
            [["d1"], ["d2"], ["d3"]]⟩⟩).fs).fs.panda.map PFile.name) ∧
    (runMainF noFail (runMainF (fun p => p == ["d1", "a_1.md"])
        ⟨["╠═══ PANDA_CORE ═══╣", "docs"], [], [], true,
          ⟨[["d1", "a_1.md"], ["d2", "a.md"], ["d3", "a.md"]],
            [["d1"], ["d2"], ["d3"]]⟩⟩).fs).fs
      ≠ (runMainF noFail ⟨["╠═══ PANDA_CORE ═══╣", "docs"], [], [], true,
          ⟨[["d1", "a_1.md"], ["d2", "a.md"], ["d3", "a.md"]],
            [["d1"], ["d2"], ["d3"]]⟩⟩).fs := by
  decide

/-- C2 (amended): on a well-formed state whose container directory is
present, (i) running the whole process a second time immediately after a
completed run performs zero additional moves and leaves the filesystem
bit-for-bit identical (hence zero duplicate files), and (ii) a clean
re-run after a partial run (any per-item failure pattern) does not
corrupt state and converges to the same final tree up to
collision-suffix assignment: placement keys stay pairwise distinct,
the same documents end up placed in the same categories (a permutation
of the clean run's placements by target directory and origin), the
residual source files are identical, the residual source directories
and the category directories coincide, and the source root exists in
one final state iff it exists in the other — though the assigned file
names themselves may differ, as the counterexample shows. -/
theorem C2_idempotent (fs0 : FS) (fails : Path → Bool) (hwf : FSWF fs0)
    (hc : NEW_PANDA_CORE ∈ fs0.rootDirs) :
    ((runMainF noFail (runMainF noFail fs0).fs).movedCount = 0 ∧
     (runMainF noFail (runMainF noFail fs0).fs).fs = (runMainF noFail fs0).fs) ∧
    (((runMainF noFail (runMainF fails fs0).fs).fs.panda.map pkey).Nodup ∧
     List.Perm
       ((runMainF noFail (runMainF fails fs0).fs).fs.panda.map dirOrigin)
       ((runMainF noFail fs0).fs.panda.map dirOrigin) ∧
     (runMainF noFail (runMainF fails fs0).fs).fs.docs.files
       = (runMainF noFail fs0).fs.docs.files ∧
     List.Perm (runMainF noFail (runMainF fails fs0).fs).fs.docs.dirs
       (runMainF noFail fs0).fs.docs.dirs ∧
     (∀ d, d ∈ (runMainF noFail (runMainF fails fs0).fs).fs.pandaDirs ↔
       d ∈ (runMainF noFail fs0).fs.pandaDirs) ∧
     (runMainF noFail (runMainF fails fs0).fs).fs.docsExists
       = (runMainF noFail fs0).fs.docsExists) :=
  ⟨second_run_idempotent fs0 hwf hc, rerun_partial fails fs0 hwf hc⟩

theorem C2_idempotent_witness :
    ((runMainF noFail (runMainF noFail ⟨["╠═══ PANDA_CORE ═══╣", "docs"],
        [], [], true, ⟨[["d2", "a.md"], ["notes.txt"]],
          [["d2"]]⟩⟩).fs).movedCount = 0 ∧
     (runMainF noFail (runMainF noFail ⟨["╠═══ PANDA_CORE ═══╣", "docs"],
        [], [], true, ⟨[["d2", "a.md"], ["notes.txt"]],
          [["d2"]]⟩⟩).fs).fs
       = (runMainF noFail ⟨["╠═══ PANDA_CORE ═══╣", "docs"],
        [], [], true, ⟨[["d2", "a.md"], ["notes.txt"]],
          [["d2"]]⟩⟩).fs) ∧
    (runMainF noFail (runMainF (fun p => p == ["d2", "a.md"])
        ⟨["╠═══ PANDA_CORE ═══╣", "docs"], [], [], true,
          ⟨[["d2", "a.md"], ["notes.txt"]], [["d2"]]⟩⟩).fs).fs.docs.files
      = (runMainF noFail ⟨["╠═══ PANDA_CORE ═══╣", "docs"], [], [], true,
          ⟨[["d2", "a.md"], ["notes.txt"]], [["d2"]]⟩⟩).fs.docs.files :=
  ⟨(C2_idempotent ⟨["╠═══ PANDA_CORE ═══╣", "docs"], [], [], true,
      ⟨[["d2", "a.md"], ["notes.txt"]], [["d2"]]⟩⟩ noFail
      ⟨⟨by decide, by decide, by decide, by decide, by decide⟩,
        by decide, by decide⟩ (by decide)).1,
   (C2_idempotent ⟨["╠═══ PANDA_CORE ═══╣", "docs"], [], [], true,
      ⟨[["d2", "a.md"], ["notes.txt"]], [["d2"]]⟩⟩
      (fun p => p == ["d2", "a.md"])
      ⟨⟨by decide, by decide, by decide, by decide, by decide⟩,
        by decide, by decide⟩ (by decide)).2.2.2.1⟩

theorem C8_md_enumeration_witness :
    (["a", "x.md"] ∉ (runMain ⟨["╠═══ PANDA_CORE ═══╣", "docs"], [], [], true,
        ⟨[["a", "x.md"], ["notes.txt"]], [["a"]]⟩⟩).fs.docs.files ∧
     ∃ e ∈ (runMain ⟨["╠═══ PANDA_CORE ═══╣", "docs"], [], [], true,
        ⟨[["a", "x.md"], ["notes.txt"]], [["a"]]⟩⟩).fs.panda,
       e.origin = ["a", "x.md"] ∧ e.dir = classifyOf ["a", "x.md"]) ∧
    ["notes.txt"] ∈ (runMain ⟨["╠═══ PANDA_CORE ═══╣", "docs"], [], [], true,
        ⟨[["a", "x.md"], ["notes.txt"]], [["a"]]⟩⟩).fs.docs.files :=
  ⟨(C8_md_enumeration _ (by decide) (by decide) (by decide)
      ["a", "x.md"] (by decide)).1 (by decide),
   (C8_md_enumeration _ (by decide) (by decide) (by decide)
      ["notes.txt"] (by decide)).2 (by decide)⟩

end ConsolidateDocs
